import Mathlib

/-! Employee Management System

A shallow embedding of `src/employee_management_system.cpp` and the properties
of its access control, record store and input validation.

Modelling conventions

* C++ `int` is `Int`; the only integers the program handles come from
  `cin >> value`, which fails on anything outside the 32-bit range, and the
  program never does arithmetic on them.
* C++ `double` is `ℚ`: every value `cin >> value` delivers is a finite double,
  hence a rational (the two zeros being one); `parseDouble` rounds the decimal
  read to the nearest double, and the program only stores, prints and compares
  the value with zero.
* Standard input is the list of the lines still to be read (without their
  newline); standard output is the list of the items sent to `cout`.
* `Employee*` is an address (`Nat`); the vector `employees` owns its objects, so
  each slot is the address together with the object stored there.
* A result `none` stands for an execution that has no final state: a loop that
  never exits because the input is exhausted, or a read through a null or
  dangling pointer or of an uninitialised variable.
-/

namespace EMS

/-! ## Data model -/

/-- The three concrete subclasses of the abstract class `Employee`. -/
inductive EmployeeClass where
  | HREmployee
  | ManagementEmployee
  | GeneralEmployee
  deriving DecidableEq, Repr

/-- The fields of class `Employee`. The field `userType` is written only by
the subclass constructors, each with its own constant, so it is a function
of the dynamic class `cls` (see `Employee.getUserType`). -/
structure Employee where
  name : String
  userId : Int
  department : String
  position : String
  salary : ℚ
  cls : EmployeeClass
  deriving DecidableEq

/-- Constructor of `HREmployee`. -/
def HREmployee (n : String) (id : Int) (dept pos : String) (sal : ℚ) : Employee :=
  ⟨n, id, dept, pos, sal, EmployeeClass.HREmployee⟩

/-- Constructor of `ManagementEmployee`. -/
def ManagementEmployee (n : String) (id : Int) (dept pos : String) (sal : ℚ) : Employee :=
  ⟨n, id, dept, pos, sal, EmployeeClass.ManagementEmployee⟩

/-- Constructor of `GeneralEmployee`. -/
def GeneralEmployee (n : String) (id : Int) (dept pos : String) (sal : ℚ) : Employee :=
  ⟨n, id, dept, pos, sal, EmployeeClass.GeneralEmployee⟩

/-- The value of the field `userType`, as set by the subclass constructor. -/
def Employee.getUserType (e : Employee) : String :=
  match e.cls with
  | EmployeeClass.HREmployee => "HR"
  | EmployeeClass.ManagementEmployee => "Management"
  | EmployeeClass.GeneralEmployee => "General"

/-- The virtual function `getPermissions`. -/
def Employee.getPermissions (e : Employee) : String :=
  match e.cls with
  | EmployeeClass.HREmployee => "Full Access: Add, View, Search, Modify, Delete employees"
  | EmployeeClass.ManagementEmployee => "Limited Access: Search and View employees only"
  | EmployeeClass.GeneralEmployee => "Restricted Access: View own information only"

def Employee.setName (e : Employee) (n : String) : Employee := { e with name := n }

def Employee.setDepartment (e : Employee) (dept : String) : Employee := { e with department := dept }

def Employee.setPosition (e : Employee) (pos : String) : Employee := { e with position := pos }

def Employee.setSalary (e : Employee) (sal : ℚ) : Employee := { e with salary := sal }

/-! ## Console -/

/-- One item inserted into `cout` with `<<`. -/
inductive Item where
  | str (s : String)
  | int (v : Int)
  | size (n : Nat)
  | fixed2 (q : ℚ)
  | endl
  deriving DecidableEq

/-- Standard input: the lines not yet read. -/
abbrev Cin := List String

/-- Standard output: the items written so far. -/
abbrev Cout := List Item

/-- The function `isspace` in the C locale. -/
def isSpace (c : Char) : Bool :=
  c.toNat = 32 || (9 ≤ c.toNat && c.toNat ≤ 13)

/-- A decimal digit. -/
def isDigit (c : Char) : Bool :=
  48 ≤ c.toNat && c.toNat ≤ 57

/-- The number written by a string of decimal digits. -/
def digitsVal (ds : List Char) : Nat :=
  ds.foldl (fun n c => 10 * n + (c.toNat - 48)) 0

/-- An optional sign in front of a number: whether it is a minus, and the rest. -/
def splitSign : List Char → Bool × List Char
  | [] => (false, [])
  | c :: t => if c = '-' then (true, t) else if c = '+' then (false, t) else (false, c :: t)

/-- A line holding only white space: formatted extraction skips it whole,
newline included, and goes on with the next line. -/
def isBlank (line : String) : Bool :=
  line.data.all isSpace

/-- The value `cin >> value` extracts from a (non-blank) line for an `int`
target: leading white space, an optional sign, at least one digit, and a
result within the range of a 32-bit `int`; `none` when the extraction sets
`failbit`. What follows the digits stays on the line. -/
def parseInt (line : String) : Option Int :=
  let sc := splitSign (line.data.dropWhile isSpace)
  let ds := sc.2.takeWhile isDigit
  if ds = [] then none
  else
    let v : Int := if sc.1 then -(digitsVal ds : Int) else (digitsVal ds : Int)
    if -2147483648 ≤ v ∧ v ≤ 2147483647 then some v else none

/-- The exponent part of a decimal number: absent (exponent 0), or `e`/`E`,
an optional sign and at least one digit. -/
def parseExponent : List Char → Option Int
  | [] => some 0
  | c :: t =>
    if c = 'e' ∨ c = 'E' then
      let sc := splitSign t
      let ds := sc.2.takeWhile isDigit
      if ds = [] then none
      else some (if sc.1 then -(digitsVal ds : Int) else (digitsVal ds : Int))
    else some 0

/-- The number of binary digits of `n` (`fuel` bounds the recursion; `n`
itself is enough): `2 ^ (bitLength n n - 1) ≤ n < 2 ^ bitLength n n` for a
positive `n`. -/
def bitLength : Nat → Nat → Nat
  | 0, _ => 0
  | fuel + 1, n => if n = 0 then 0 else bitLength fuel (n / 2) + 1

/-- The binary exponent of the positive fraction `n / d`: the integer `e` with
`2 ^ e ≤ n / d < 2 ^ (e + 1)`. -/
def binaryExponent (n d : Nat) : Int :=
  let e0 : Int := (bitLength n n : Int) - (bitLength d d : Int)
  if d * 2 ^ e0.toNat ≤ n * 2 ^ (-e0).toNat then e0 else e0 - 1

/-- The conversion of the fraction `n / d` (`d` positive) to a `double`, as
`strtod` does it: the nearest number `m * 2 ^ k` with `m ≤ 2 ^ 53` and
`k ≥ -1074` (`k` is the exponent of the last place of a double of this size,
that of the subnormal numbers for a small fraction), a tie going to the even
`m`; `none` when the result is beyond the largest double, that is at least
`2 ^ 1024`: then `k > 971`, or `k = 971` and `m = 2 ^ 53` (for `k > -1074` the
rounded `m` is at least `2 ^ 52`). A fraction too small for any double becomes
zero. -/
def roundToDouble (n d : Nat) : Option ℚ :=
  if n = 0 then some 0
  else
    let e := binaryExponent n d
    let k : Int := max e (-1022) - 52
    let p := n * 2 ^ (-k).toNat
    let q := d * 2 ^ k.toNat
    let m0 := p / q
    let r := p % q
    let m := if 2 * r < q then m0 else if q < 2 * r then m0 + 1
      else if m0 % 2 = 0 then m0 else m0 + 1
    if 971 < k ∨ (k = 971 ∧ 2 ^ 53 ≤ m) then none
    else some (mkRat (m * 2 ^ k.toNat : Nat) (2 ^ (-k).toNat))

/-- The value `cin >> value` extracts from a (non-blank) line for a `double`
target, as the `num_get` of libstdc++ does it: leading white space, an
optional sign, digits with an optional fraction, an optional exponent, and
the decimal number read is converted to the nearest double. The result is
`none` when the extraction sets `failbit`: no digit, an exponent without
digits, or a magnitude that converts to infinity. A number too small for a
double converts to zero, whatever its sign: the two zeros of `double` are the
one rational zero, for which `value >= 0` holds as it does for both. -/
def parseDouble (line : String) : Option ℚ :=
  let sc := splitSign (line.data.dropWhile isSpace)
  let ip := sc.2.takeWhile isDigit
  let r1 := sc.2.dropWhile isDigit
  let fp := match r1 with
    | [] => []
    | c :: t => if c = '.' then t.takeWhile isDigit else []
  let r2 := match r1 with
    | [] => []
    | c :: t => if c = '.' then t.dropWhile isDigit else c :: t
  if ip = [] ∧ fp = [] then none
  else
    match parseExponent r2 with
    | none => none
    | some ex =>
      let dexp : Int := ex - (fp.length : Int)
      match roundToDouble (digitsVal (ip ++ fp) * 10 ^ dexp.toNat) (10 ^ (-dexp).toNat) with
      | none => none
      | some v => some (if sc.1 then -v else v)

/-- The character `cin >> c` extracts from a line for a `char` target: the
first character that is not white space. -/
def parseChar (line : String) : Option Char :=
  (line.data.dropWhile isSpace).head?

/-- The statement pair `cin >> c; cin.ignore(max, newline)` for a `char`
target: blank lines are skipped, the first other character is delivered and
the rest of its line discarded. At the end of input nothing is stored and the
target keeps its indeterminate value (`none`). -/
def extractChar : Cin → Option (Char × Cin)
  | [] => none
  | l :: rest =>
    match parseChar l with
    | some c => some (c, rest)
    | none => extractChar rest

/-- The call `cin.get()`: takes one character; a line that is empty (the user
only pressed Enter) loses its newline, any other line its first character. -/
def cinGet : Cin → Cin
  | [] => []
  | l :: rest =>
    match l.data with
    | [] => rest
    | _ :: cs => String.mk cs :: rest

/-- The loop of `getValidInteger`, entered after the prompt has been written.
Each `cin >> value` skips blank lines; on success the rest of the line is
ignored and the value returned; on failure the message is written, the line
dropped and the next round writes the prompt again. With the input exhausted
every further extraction fails and the loop never exits. -/
def getValidIntegerLoop (prompt : String) : Cin → Cout → Option (Int × Cin × Cout)
  | [], _ => none
  | l :: rest, out =>
    if isBlank l then getValidIntegerLoop prompt rest out
    else
      match parseInt l with
      | some value => some (value, rest, out)
      | none =>
        getValidIntegerLoop prompt rest
          (out ++ [Item.str "Invalid input. Please enter a number.", Item.endl, Item.str prompt])

/-- The function `getValidInteger`. -/
def getValidInteger (prompt : String) (cin : Cin) (out : Cout) : Option (Int × Cin × Cout) :=
  getValidIntegerLoop prompt cin (out ++ [Item.str prompt])

/-- The loop of `getValidDouble`, entered after the prompt has been written:
as `getValidIntegerLoop`, with the extra test `value >= 0` for success. -/
def getValidDoubleLoop (prompt : String) : Cin → Cout → Option (ℚ × Cin × Cout)
  | [], _ => none
  | l :: rest, out =>
    if isBlank l then getValidDoubleLoop prompt rest out
    else
      match parseDouble l with
      | some value =>
        if value ≥ 0 then some (value, rest, out)
        else
          getValidDoubleLoop prompt rest
            (out ++ [Item.str "Invalid input. Please enter a positive number.", Item.endl,
              Item.str prompt])
      | none =>
        getValidDoubleLoop prompt rest
          (out ++ [Item.str "Invalid input. Please enter a positive number.", Item.endl,
            Item.str prompt])

/-- The function `getValidDouble`. -/
def getValidDouble (prompt : String) (cin : Cin) (out : Cout) : Option (ℚ × Cin × Cout) :=
  getValidDoubleLoop prompt cin (out ++ [Item.str prompt])

/-- The function `getStringInput`: `getline` delivers the next line, or leaves
the string empty at the end of input. -/
def getStringInput (prompt : String) (cin : Cin) (out : Cout) : String × Cin × Cout :=
  match cin with
  | [] => ("", [], out ++ [Item.str prompt])
  | l :: rest => (l, rest, out ++ [Item.str prompt])

/-- The function `std::string::find` with a string argument: the first
position at which `needle` occurs in the text, `none` for `npos`. -/
def strFind (needle : List Char) : List Char → Option Nat
  | [] => if needle = [] then some 0 else none
  | c :: t =>
    if needle.isPrefixOf (c :: t) then some 0
    else (strFind needle t).map (fun pos => pos + 1)

/-- The text `Employee::displayInfo` writes. -/
def Employee.displayInfoBase (e : Employee) : Cout :=
  [Item.str "\n--- Employee Information ---", Item.endl,
   Item.str "Name: ", Item.str e.name, Item.endl,
   Item.str "User ID: ", Item.int e.userId, Item.endl,
   Item.str "Department: ", Item.str e.department, Item.endl,
   Item.str "Position: ", Item.str e.position, Item.endl,
   Item.str "Salary: $", Item.fixed2 e.salary, Item.endl,
   Item.str "User Type: ", Item.str e.getUserType, Item.endl]

/-- The virtual function `displayInfo`: all three overrides call the base
function and then write the permissions. -/
def Employee.displayInfo (e : Employee) : Cout :=
  e.displayInfoBase ++ [Item.str "Permissions: ", Item.str e.getPermissions, Item.endl]

/-! ## The system -/

/-- The class `EmployeeManagementSystem`: the vector `employees`, each slot
the address held there and the object at that address, and the pointer
`currentUser` (`none` for `nullptr`). -/
structure EmployeeManagementSystem where
  employees : List (Nat × Employee)
  currentUser : Option Nat
  deriving DecidableEq

/-- The records of the store, in the order of the vector. -/
def EmployeeManagementSystem.records (s : EmployeeManagementSystem) : List Employee :=
  s.employees.map Prod.snd

/-- The expression `new T(...)`: an address that no live object has. -/
def newAddr (employees : List (Nat × Employee)) : Nat :=
  (employees.map Prod.fst).foldr max 0 + 1

/-- The call `employees.push_back(new T(...))`. -/
def pushBackNew (employees : List (Nat × Employee)) (e : Employee) : List (Nat × Employee) :=
  employees ++ [(newAddr employees, e)]

/-- The object at an address. -/
def lookup (employees : List (Nat × Employee)) (a : Nat) : Option Employee :=
  match employees with
  | [] => none
  | emp :: rest => if emp.1 = a then some emp.2 else lookup rest a

/-- The object `*currentUser`; `none` when the pointer is null or dangling. -/
def EmployeeManagementSystem.current (s : EmployeeManagementSystem) : Option Employee :=
  match s.currentUser with
  | none => none
  | some a => lookup s.employees a

/-- A write through a pointer: the object at address `a` becomes `f` of it. -/
def store (employees : List (Nat × Employee)) (a : Nat) (f : Employee → Employee) :
    List (Nat × Employee) :=
  employees.map (fun emp => if emp.1 = a then (emp.1, f emp.2) else emp)

/-- The constructor: no current user, and the five seeded employees. -/
def EmployeeManagementSystem.init : EmployeeManagementSystem :=
  let e0 : List (Nat × Employee) := []
  let e1 := pushBackNew e0
    (HREmployee "Sarah Johnson" 1001 "Human Resources" "HR Manager" 75000)
  let e2 := pushBackNew e1
    (ManagementEmployee "Mike Davis" 2001 "Operations" "Operations Manager" 85000)
  let e3 := pushBackNew e2 (GeneralEmployee "John Smith" 3001 "IT" "Software Developer" 65000)
  let e4 := pushBackNew e3
    (GeneralEmployee "Emily Brown" 3002 "Marketing" "Marketing Specialist" 55000)
  let e5 := pushBackNew e4
    (GeneralEmployee "David Wilson" 3003 "Finance" "Financial Analyst" 60000)
  { employees := e5, currentUser := none }

/-- The function `userIdExists`. -/
def userIdExists (employees : List (Nat × Employee)) (id : Int) : Bool :=
  match employees with
  | [] => false
  | emp :: rest => if emp.2.userId = id then true else userIdExists rest id

/-- The loop `for (Employee* emp : employees) if (emp->getUserId() == userId)`
that stops at the first hit (in `login`, `searchEmployees` and
`modifyEmployee`): the slot found, if any. -/
def findById (employees : List (Nat × Employee)) (userId : Int) : Option (Nat × Employee) :=
  match employees with
  | [] => none
  | emp :: rest => if emp.2.userId = userId then some emp else findById rest userId

/-- The function `login`. The boolean is the value returned. -/
def login (s : EmployeeManagementSystem) (cin : Cin) (out : Cout) :
    Option (Bool × EmployeeManagementSystem × Cin × Cout) :=
  match getValidInteger "Enter your User ID: " cin
      (out ++ [Item.str "\n=== Employee Management System Login ===", Item.endl]) with
  | none => none
  | some (userId, cin1, out1) =>
    match findById s.employees userId with
    | some emp =>
      some (true, { s with currentUser := some emp.1 }, cin1,
        out1 ++ [Item.str "\nLogin successful! Welcome, ", Item.str emp.2.name, Item.endl,
          Item.str "User Type: ", Item.str emp.2.getUserType, Item.endl])
    | none => some (false, s, cin1, out1 ++ [Item.str "Invalid User ID. Access denied.", Item.endl])

/-- The `do ... while (userIdExists(userId))` loop of `addEmployee`. Every
round reads at least one line, so `fuel` rounds are enough for an input of
`fuel` lines. -/
def addEmployeeIdLoop (employees : List (Nat × Employee)) :
    Nat → Cin → Cout → Option (Int × Cin × Cout)
  | 0, _, _ => none
  | fuel + 1, cin, out =>
    match getValidInteger "Enter unique User ID: " cin out with
    | none => none
    | some (userId, cin1, out1) =>
      if userIdExists employees userId then
        addEmployeeIdLoop employees fuel cin1
          (out1 ++ [Item.str "User ID already exists. Please choose a different ID.", Item.endl])
      else some (userId, cin1, out1)

/-- The `switch (choice)` of `addEmployee`: the object created and the text
written. -/
def addEmployeeSwitch (choice : Int) (name : String) (userId : Int) (department position : String)
    (salary : ℚ) : Employee × Cout :=
  if choice = 1 then (HREmployee name userId department position salary, [])
  else if choice = 2 then (ManagementEmployee name userId department position salary, [])
  else if choice = 3 then (GeneralEmployee name userId department position salary, [])
  else (GeneralEmployee name userId department position salary,
    [Item.str "Invalid choice. Creating as General Employee.", Item.endl])

/-- The function `addEmployee`. -/
def addEmployee (s : EmployeeManagementSystem) (cin : Cin) (out : Cout) :
    Option (EmployeeManagementSystem × Cin × Cout) :=
  match s.current with
  | none => none
  | some u =>
    if u.getUserType ≠ "HR" then
      some (s, cin, out ++ [Item.str "Access denied. Only HR can add employees.", Item.endl])
    else
      match getStringInput "Enter employee name: " cin
          (out ++ [Item.str "\n=== Add New Employee ===", Item.endl]) with
      | (name, cin1, out1) =>
        match addEmployeeIdLoop s.employees cin1.length cin1 out1 with
        | none => none
        | some (userId, cin2, out2) =>
          match getStringInput "Enter department: " cin2 out2 with
          | (department, cin3, out3) =>
            match getStringInput "Enter position: " cin3 out3 with
            | (position, cin4, out4) =>
              match getValidDouble "Enter salary: $" cin4 out4 with
              | none => none
              | some (salary, cin5, out5) =>
                match getValidInteger "Enter choice (1-3): " cin5
                    (out5 ++ [Item.str "\nSelect employee type:", Item.endl,
                      Item.str "1. HR Employee", Item.endl,
                      Item.str "2. Management Employee", Item.endl,
                      Item.str "3. General Employee", Item.endl]) with
                | none => none
                | some (choice, cin6, out6) =>
                  match addEmployeeSwitch choice name userId department position salary with
                  | (newEmployee, msg) =>
                    some ({ s with employees := pushBackNew s.employees newEmployee }, cin6,
                      out6 ++ msg ++ [Item.str "\nEmployee added successfully!", Item.endl])

/-- The loop `for (size_t i = ...; ++i)` of `viewEmployees`, from index `i` on. -/
def viewEmployeesLoop : Nat → List (Nat × Employee) → Cout
  | _, [] => []
  | i, emp :: rest =>
    [Item.str "\n--- Employee ", Item.size (i + 1), Item.str " ---", Item.endl]
      ++ emp.2.displayInfo
      ++ [Item.str (String.mk (List.replicate 40 '-')), Item.endl]
      ++ viewEmployeesLoop (i + 1) rest

/-- The function `viewEmployees`. -/
def viewEmployees (s : EmployeeManagementSystem) (cin : Cin) (out : Cout) :
    Option (EmployeeManagementSystem × Cin × Cout) :=
  match s.current with
  | none => none
  | some u =>
    if u.getUserType = "General" then
      some (s, cin, out ++ [Item.str "\n=== Your Employee Information ===", Item.endl]
        ++ u.displayInfo)
    else if s.employees.isEmpty then
      some (s, cin, out ++ [Item.str "\n=== All Employees ===", Item.endl,
        Item.str "No employees found.", Item.endl])
    else
      some (s, cin, out ++ [Item.str "\n=== All Employees ===", Item.endl]
        ++ viewEmployeesLoop 0 s.employees)

/-- The loop of case 2 of `searchEmployees`: the flag `found` and the output. -/
def searchNameLoop (searchName : String) :
    List (Nat × Employee) → Bool → Cout → Bool × Cout
  | [], found, out => (found, out)
  | emp :: rest, found, out =>
    if (strFind searchName.data emp.2.name.data).isSome then
      searchNameLoop searchName rest true
        (out ++ [Item.str "\n--- Search Result ---", Item.endl] ++ emp.2.displayInfo)
    else searchNameLoop searchName rest found out

/-- The loop of case 3 of `searchEmployees`: the flag `found` and the output. -/
def searchDeptLoop (searchDept : String) :
    List (Nat × Employee) → Bool → Cout → Bool × Cout
  | [], found, out => (found, out)
  | emp :: rest, found, out =>
    if (strFind searchDept.data emp.2.department.data).isSome then
      searchDeptLoop searchDept rest true
        (out ++ [Item.str "\n--- Search Result ---", Item.endl] ++ emp.2.displayInfo)
    else searchDeptLoop searchDept rest found out

/-- The `switch (choice)` of `searchEmployees`. -/
def searchEmployeesSwitch (s : EmployeeManagementSystem) (choice : Int) (cin : Cin) (out : Cout) :
    Option (Cin × Cout) :=
  if choice = 1 then
    match getValidInteger "Enter User ID to search: " cin out with
    | none => none
    | some (searchId, cin1, out1) =>
      match findById s.employees searchId with
      | some emp =>
        some (cin1, out1 ++ [Item.str "\n--- Search Result ---", Item.endl] ++ emp.2.displayInfo)
      | none =>
        some (cin1, out1 ++ [Item.str "No employee found with User ID: ", Item.int searchId,
          Item.endl])
  else if choice = 2 then
    match getStringInput "Enter name to search: " cin out with
    | (searchName, cin1, out1) =>
      match searchNameLoop searchName s.employees false out1 with
      | (found, out2) =>
        if !found then
          some (cin1, out2 ++ [Item.str "No employee found with name containing: ",
            Item.str searchName, Item.endl])
        else some (cin1, out2)
  else if choice = 3 then
    match getStringInput "Enter department to search: " cin out with
    | (searchDept, cin1, out1) =>
      match searchDeptLoop searchDept s.employees false out1 with
      | (found, out2) =>
        if !found then
          some (cin1, out2 ++ [Item.str "No employee found in department: ",
            Item.str searchDept, Item.endl])
        else some (cin1, out2)
  else some (cin, out ++ [Item.str "Invalid search option.", Item.endl])

/-- The function `searchEmployees`. -/
def searchEmployees (s : EmployeeManagementSystem) (cin : Cin) (out : Cout) :
    Option (EmployeeManagementSystem × Cin × Cout) :=
  match s.current with
  | none => none
  | some u =>
    if u.getUserType = "General" then
      some (s, cin, out ++ [Item.str
        "Access denied. General employees can only view their own information.", Item.endl])
    else
      match getValidInteger "Enter search option (1-3): " cin
          (out ++ [Item.str "\n=== Search Employees ===", Item.endl,
            Item.str "1. Search by User ID", Item.endl,
            Item.str "2. Search by Name", Item.endl,
            Item.str "3. Search by Department", Item.endl]) with
      | none => none
      | some (choice, cin1, out1) =>
        match searchEmployeesSwitch s choice cin1 out1 with
        | none => none
        | some (cin2, out2) => some (s, cin2, out2)

/-- The `switch (choice)` of `modifyEmployee`, for the object at address
`employee`. -/
def modifyEmployeeSwitch (employees : List (Nat × Employee)) (employee : Nat) (choice : Int)
    (cin : Cin) (out : Cout) : Option (List (Nat × Employee) × Cin × Cout) :=
  if choice = 1 then
    match getStringInput "Enter new name: " cin out with
    | (newName, cin1, out1) =>
      some (store employees employee (fun e => e.setName newName), cin1,
        out1 ++ [Item.str "Name updated successfully!", Item.endl])
  else if choice = 2 then
    match getStringInput "Enter new department: " cin out with
    | (newDept, cin1, out1) =>
      some (store employees employee (fun e => e.setDepartment newDept), cin1,
        out1 ++ [Item.str "Department updated successfully!", Item.endl])
  else if choice = 3 then
    match getStringInput "Enter new position: " cin out with
    | (newPos, cin1, out1) =>
      some (store employees employee (fun e => e.setPosition newPos), cin1,
        out1 ++ [Item.str "Position updated successfully!", Item.endl])
  else if choice = 4 then
    match getValidDouble "Enter new salary: $" cin out with
    | none => none
    | some (newSalary, cin1, out1) =>
      some (store employees employee (fun e => e.setSalary newSalary), cin1,
        out1 ++ [Item.str "Salary updated successfully!", Item.endl])
  else some (employees, cin, out ++ [Item.str "Invalid choice.", Item.endl])

/-- The function `modifyEmployee`. -/
def modifyEmployee (s : EmployeeManagementSystem) (cin : Cin) (out : Cout) :
    Option (EmployeeManagementSystem × Cin × Cout) :=
  match s.current with
  | none => none
  | some u =>
    if u.getUserType ≠ "HR" then
      some (s, cin, out ++ [Item.str "Access denied. Only HR can modify employee information.",
        Item.endl])
    else
      match getValidInteger "Enter User ID of employee to modify: " cin
          (out ++ [Item.str "\n=== Modify Employee ===", Item.endl]) with
      | none => none
      | some (userId, cin1, out1) =>
        match findById s.employees userId with
        | none =>
          some (s, cin1, out1 ++ [Item.str "Employee not found with User ID: ", Item.int userId,
            Item.endl])
        | some emp =>
          match getValidInteger "Enter choice (1-4): " cin1
              (out1 ++ [Item.str "\nCurrent employee information:", Item.endl]
                ++ emp.2.displayInfo
                ++ [Item.str "\nWhat would you like to modify?", Item.endl,
                  Item.str "1. Name", Item.endl,
                  Item.str "2. Department", Item.endl,
                  Item.str "3. Position", Item.endl,
                  Item.str "4. Salary", Item.endl]) with
          | none => none
          | some (choice, cin2, out2) =>
            match modifyEmployeeSwitch s.employees emp.1 choice cin2 out2 with
            | none => none
            | some (employees3, cin3, out3) => some ({ s with employees := employees3 }, cin3, out3)

/-- The call `find_if(employees.begin(), employees.end(), ...)` of
`deleteEmployee`: the position of the first slot whose object has the id,
`none` for `employees.end()`. -/
def findIf (employees : List (Nat × Employee)) (userId : Int) : Option Nat :=
  match employees with
  | [] => none
  | emp :: rest =>
    if emp.2.userId = userId then some 0 else (findIf rest userId).map (fun it => it + 1)

/-- The function `deleteEmployee`. -/
def deleteEmployee (s : EmployeeManagementSystem) (cin : Cin) (out : Cout) :
    Option (EmployeeManagementSystem × Cin × Cout) :=
  match s.current with
  | none => none
  | some u =>
    if u.getUserType ≠ "HR" then
      some (s, cin, out ++ [Item.str "Access denied. Only HR can delete employees.", Item.endl])
    else
      match getValidInteger "Enter User ID of employee to delete: " cin
          (out ++ [Item.str "\n=== Delete Employee ===", Item.endl]) with
      | none => none
      | some (userId, cin1, out1) =>
        if userId = u.userId then
          some (s, cin1, out1 ++ [Item.str "Cannot delete your own account while logged in.",
            Item.endl])
        else
          match findIf s.employees userId with
          | some it =>
            match s.employees.get? it with
            | none => none
            | some emp =>
              match extractChar cin1 with
              | none => none
              | some (confirm, cin2) =>
                let out2 := out1 ++ [Item.str "\nEmployee to be deleted:", Item.endl]
                  ++ emp.2.displayInfo
                  ++ [Item.str "\nAre you sure you want to delete this employee? (y/n): "]
                if confirm = 'y' ∨ confirm = 'Y' then
                  some ({ s with employees := s.employees.eraseIdx it }, cin2,
                    out2 ++ [Item.str "Employee deleted successfully!", Item.endl])
                else some (s, cin2, out2 ++ [Item.str "Deletion cancelled.", Item.endl])
          | none =>
            some (s, cin1, out1 ++ [Item.str "Employee not found with User ID: ",
              Item.int userId, Item.endl])

/-- The function `displayMenu`, for the current user `u`. -/
def displayMenu (u : Employee) : Cout :=
  [Item.str "\n=== Main Menu ===", Item.endl,
   Item.str "Logged in as: ", Item.str u.name, Item.str " (", Item.str u.getUserType,
   Item.str ")", Item.endl,
   Item.str (String.mk (List.replicate 40 '=')), Item.endl]
  ++ (if u.getUserType = "HR" then
        [Item.str "1. Add Employee", Item.endl,
         Item.str "2. View All Employees", Item.endl,
         Item.str "3. Search Employees", Item.endl,
         Item.str "4. Modify Employee", Item.endl,
         Item.str "5. Delete Employee", Item.endl,
         Item.str "6. Logout", Item.endl]
      else if u.getUserType = "Management" then
        [Item.str "1. View All Employees", Item.endl,
         Item.str "2. Search Employees", Item.endl,
         Item.str "3. Logout", Item.endl]
      else
        [Item.str "1. View My Information", Item.endl,
         Item.str "2. Logout", Item.endl])

/-- What a `case` of the three `switch` statements in the main loop of `run`
does. -/
inductive Action where
  | addEmployee
  | viewEmployees
  | searchEmployees
  | modifyEmployee
  | deleteEmployee
  | logout
  | invalid
  deriving DecidableEq, Repr

/-- The prompt of the main loop for a user type. -/
def menuPrompt (userType : String) : String :=
  if userType = "HR" then "Enter your choice (1-6): "
  else if userType = "Management" then "Enter your choice (1-3): "
  else "Enter your choice (1-2): "

/-- The three `switch (choice)` statements of the main loop of `run`: the case
taken for a user type and a choice. -/
def menuAction (userType : String) (choice : Int) : Action :=
  if userType = "HR" then
    if choice = 1 then Action.addEmployee
    else if choice = 2 then Action.viewEmployees
    else if choice = 3 then Action.searchEmployees
    else if choice = 4 then Action.modifyEmployee
    else if choice = 5 then Action.deleteEmployee
    else if choice = 6 then Action.logout
    else Action.invalid
  else if userType = "Management" then
    if choice = 1 then Action.viewEmployees
    else if choice = 2 then Action.searchEmployees
    else if choice = 3 then Action.logout
    else Action.invalid
  else
    if choice = 1 then Action.viewEmployees
    else if choice = 2 then Action.logout
    else Action.invalid

/-- The body of a `case` that does not leave the main loop. -/
def perform (a : Action) (s : EmployeeManagementSystem) (cin : Cin) (out : Cout) :
    Option (EmployeeManagementSystem × Cin × Cout) :=
  match a with
  | Action.addEmployee => addEmployee s cin out
  | Action.viewEmployees => viewEmployees s cin out
  | Action.searchEmployees => searchEmployees s cin out
  | Action.modifyEmployee => modifyEmployee s cin out
  | Action.deleteEmployee => deleteEmployee s cin out
  | Action.logout => some (s, cin, out)
  | Action.invalid => some (s, cin, out ++ [Item.str "Invalid choice. Please try again.", Item.endl])

/-- The main loop `while (true)` of `run`. A round that returns ends the loop
with the state as it is; every round reads at least one line, so `fuel` rounds
are enough for an input of `fuel` lines. -/
def mainLoop : Nat → EmployeeManagementSystem → Cin → Cout →
    Option (EmployeeManagementSystem × Cin × Cout)
  | 0, _, _, _ => none
  | fuel + 1, s, cin, out =>
    match s.current with
    | none => none
    | some u =>
      match getValidInteger (menuPrompt u.getUserType) cin (out ++ displayMenu u) with
      | none => none
      | some (choice, cin1, out1) =>
        if menuAction u.getUserType choice = Action.logout then
          some (s, cin1, out1 ++ [Item.str "Logging out... Goodbye!", Item.endl])
        else
          match perform (menuAction u.getUserType choice) s cin1 out1 with
          | none => none
          | some (s2, cin2, out2) =>
            mainLoop fuel s2 (cinGet cin2) (out2 ++ [Item.str "\nPress Enter to continue..."])

/-- The loop `while (!login())` of `run`: `some (true, _)` when a login
succeeded, `some (false, _)` when the user gave up. -/
def loginLoop : Nat → EmployeeManagementSystem → Cin → Cout →
    Option (Bool × EmployeeManagementSystem × Cin × Cout)
  | 0, _, _, _ => none
  | fuel + 1, s, cin, out =>
    match login s cin out with
    | none => none
    | some (true, s1, cin1, out1) => some (true, s1, cin1, out1)
    | some (false, s1, cin1, out1) =>
      match extractChar cin1 with
      | none => none
      | some (retry, cin2) =>
        if retry ≠ 'y' ∧ retry ≠ 'Y' then
          some (false, s1, cin2,
            out1 ++ [Item.str "Would you like to try again? (y/n): ", Item.str "Goodbye!",
              Item.endl])
        else loginLoop fuel s1 cin2 (out1 ++ [Item.str "Would you like to try again? (y/n): "])

/-- The text `run` writes first. -/
def welcome : Cout :=
  [Item.str "Welcome to the Employee Management Information System!", Item.endl,
   Item.str "\nDefault Login Credentials for Testing:", Item.endl,
   Item.str "HR User: 1001 (Sarah Johnson)", Item.endl,
   Item.str "Management User: 2001 (Mike Davis)", Item.endl,
   Item.str "General Employee: 3001 (John Smith), 3002 (Emily Brown), 3003 (David Wilson)",
   Item.endl]

/-- The function `run`. -/
def run (s : EmployeeManagementSystem) (cin : Cin) (out : Cout) :
    Option (EmployeeManagementSystem × Cin × Cout) :=
  match loginLoop cin.length s cin (out ++ welcome) with
  | none => none
  | some (false, s1, cin1, out1) => some (s1, cin1, out1)
  | some (true, s1, cin1, out1) => mainLoop cin1.length s1 cin1 out1

/-- The function `main`, up to the exit status: the system is constructed and
run on the input. -/
def main (cin : Cin) : Option (EmployeeManagementSystem × Cin × Cout) :=
  run EmployeeManagementSystem.init cin []

/-! ## Specification vocabulary -/

/-- What the loop of `addEmployee` writes for the entries it rejects: for each
the prompt it answered and the message. -/
def rejectedIds (dups : List String) : Cout :=
  dups.flatMap (fun _ => [Item.str "Enter unique User ID: ",
    Item.str "User ID already exists. Please choose a different ID.", Item.endl])

/-- The seeded system with the object at address `a` logged in. -/
def seededAs (a : Nat) : EmployeeManagementSystem :=
  { EmployeeManagementSystem.init with currentUser := some a }

/-- What a search writes for the records it found, in their order. -/
def searchResults (hits : List Employee) : Cout :=
  hits.flatMap (fun e => [Item.str "\n--- Search Result ---", Item.endl] ++ e.displayInfo)

/-- The text occurs in the string as a run of consecutive characters. -/
def containsText (text str : String) : Prop :=
  text.data <:+: str.data

instance (text str : String) : Decidable (containsText text str) :=
  inferInstanceAs (Decidable (text.data <:+: str.data))

/-- A system that holds one record only, the seeded John Smith, logged in. -/
def johnAlone : EmployeeManagementSystem :=
  { employees := [(7, GeneralEmployee "John Smith" 3001 "IT" "Software Developer" 65000)],
    currentUser := some 7 }

/-- No two slots of the vector hold the same address: the objects of the
store are distinct objects. -/
def AddrsDistinct (s : EmployeeManagementSystem) : Prop :=
  (s.employees.map Prod.fst).Nodup

instance (s : EmployeeManagementSystem) : Decidable (AddrsDistinct s) :=
  inferInstanceAs (Decidable (s.employees.map Prod.fst).Nodup)

/-- No two records of the store have the same id. -/
def IdsDistinct (s : EmployeeManagementSystem) : Prop :=
  (s.records.map Employee.userId).Nodup

instance (s : EmployeeManagementSystem) : Decidable (IdsDistinct s) :=
  inferInstanceAs (Decidable (s.records.map Employee.userId).Nodup)

/-- The systems that calls of the public operations, in any order and on any
input, lead to from the constructed system. -/
inductive Reachable : EmployeeManagementSystem → Prop where
  | init : Reachable EmployeeManagementSystem.init
  | login {s s1 : EmployeeManagementSystem} {cin cin1 : Cin} {out out1 : Cout} {b : Bool} :
      Reachable s → login s cin out = some (b, s1, cin1, out1) → Reachable s1
  | addEmployee {s s1 : EmployeeManagementSystem} {cin cin1 : Cin} {out out1 : Cout} :
      Reachable s → addEmployee s cin out = some (s1, cin1, out1) → Reachable s1
  | viewEmployees {s s1 : EmployeeManagementSystem} {cin cin1 : Cin} {out out1 : Cout} :
      Reachable s → viewEmployees s cin out = some (s1, cin1, out1) → Reachable s1
  | searchEmployees {s s1 : EmployeeManagementSystem} {cin cin1 : Cin} {out out1 : Cout} :
      Reachable s → searchEmployees s cin out = some (s1, cin1, out1) → Reachable s1
  | modifyEmployee {s s1 : EmployeeManagementSystem} {cin cin1 : Cin} {out out1 : Cout} :
      Reachable s → modifyEmployee s cin out = some (s1, cin1, out1) → Reachable s1
  | deleteEmployee {s s1 : EmployeeManagementSystem} {cin cin1 : Cin} {out out1 : Cout} :
      Reachable s → deleteEmployee s cin out = some (s1, cin1, out1) → Reachable s1

/-- The seeded HR record. -/
def sarah : Employee := HREmployee "Sarah Johnson" 1001 "Human Resources" "HR Manager" 75000

/-- The seeded Management record. -/
def mike : Employee :=
  ManagementEmployee "Mike Davis" 2001 "Operations" "Operations Manager" 85000

/-- The first seeded General record. -/
def john : Employee := GeneralEmployee "John Smith" 3001 "IT" "Software Developer" 65000

/-- The second seeded General record. -/
def emily : Employee :=
  GeneralEmployee "Emily Brown" 3002 "Marketing" "Marketing Specialist" 55000

/-- The third seeded General record. -/
def david : Employee := GeneralEmployee "David Wilson" 3003 "Finance" "Financial Analyst" 60000

/-- No record of the store has a negative salary. -/
def SalariesNonneg (s : EmployeeManagementSystem) : Prop :=
  ∀ r ∈ s.records, 0 ≤ r.salary

/-- The systems of a session: those a successful `login` on the constructed
system leads to, and those any case of the main loop leads to from there. -/
inductive InSession : EmployeeManagementSystem → Prop where
  | login {s1 : EmployeeManagementSystem} {cin cin1 : Cin} {out out1 : Cout} :
      login EmployeeManagementSystem.init cin out = some (true, s1, cin1, out1) → InSession s1
  | step {s s1 : EmployeeManagementSystem} {a : Action} {cin cin1 : Cin} {out out1 : Cout} :
      InSession s → perform a s cin out = some (s1, cin1, out1) → InSession s1

end EMS

/-! ## Input routines -/

namespace EMS

theorem dropWhile_isSpace_of_isBlank (l : String) (h : isBlank l = true) :
    l.data.dropWhile isSpace = [] := by
  unfold isBlank at h
  rw [List.dropWhile_eq_nil_iff]
  simpa [List.all_eq_true] using h

theorem parseInt_of_isBlank (l : String) (h : isBlank l = true) : parseInt l = none := by
  simp [parseInt, dropWhile_isSpace_of_isBlank l h, splitSign]

theorem isBlank_of_parseInt {l : String} {v : Int} (h : parseInt l = some v) :
    isBlank l = false := by
  cases hb : isBlank l with
  | false => rfl
  | true => rw [parseInt_of_isBlank l hb] at h; cases h

theorem parseDouble_of_isBlank (l : String) (h : isBlank l = true) : parseDouble l = none := by
  simp [parseDouble, dropWhile_isSpace_of_isBlank l h, splitSign]

theorem isBlank_of_parseDouble {l : String} {v : ℚ} (h : parseDouble l = some v) :
    isBlank l = false := by
  cases hb : isBlank l with
  | false => rfl
  | true => rw [parseDouble_of_isBlank l hb] at h; cases h

theorem bitLength_zero (fuel : Nat) : bitLength fuel 0 = 0 := by
  cases fuel <;> simp [bitLength]

/-- The function `bitLength` counts the binary digits: a positive `n` lies
between `2 ^ b` and `2 ^ (b + 1)` for `b + 1 = bitLength fuel n`, whenever the
fuel is at least `n`. -/
theorem bitLength_spec :
    ∀ (fuel n : Nat), 0 < n → n ≤ fuel →
      ∃ b, bitLength fuel n = b + 1 ∧ 2 ^ b ≤ n ∧ n < 2 ^ (b + 1)
  | 0, n, h0, h1 => by omega
  | fuel + 1, n, h0, h1 => by
    have hn : n ≠ 0 := by omega
    simp only [bitLength, hn, if_false]
    by_cases h : n / 2 = 0
    · refine ⟨0, ?_, ?_, ?_⟩
      · rw [h, bitLength_zero]
      · simpa using h0
      · have : n = 1 := by omega
        rw [this]
        decide
    · obtain ⟨b, hb, hlo, hhi⟩ := bitLength_spec fuel (n / 2) (by omega) (by omega)
      refine ⟨b + 1, by rw [hb], ?_, ?_⟩
      · rw [pow_succ]
        omega
      · rw [pow_succ] at hhi ⊢
        omega

/-- The function `binaryExponent` delivers the binary exponent of a positive
fraction `n / d`: with `e` its value, `2 ^ e ≤ n / d < 2 ^ (e + 1)`, written
without division (a negative exponent multiplies the other side). -/
theorem binaryExponent_spec (n d : Nat) (hn : 0 < n) (hd : 0 < d) :
    d * 2 ^ (binaryExponent n d).toNat ≤ n * 2 ^ (-(binaryExponent n d)).toNat
    ∧ n * 2 ^ (-(binaryExponent n d + 1)).toNat < d * 2 ^ (binaryExponent n d + 1).toNat := by
  obtain ⟨a, ha, ha1, ha2⟩ := bitLength_spec n n hn le_rfl
  obtain ⟨b, hb, hb1, hb2⟩ := bitLength_spec d d hd le_rfl
  rcases le_or_lt b a with hab | hab
  · obtain ⟨c, rfl⟩ := Nat.exists_eq_add_of_le hab
    have he0 : ((b + c + 1 : Nat) : Int) - ((b + 1 : Nat) : Int) = (c : Int) := by
      push_cast
      ring
    have hdef : binaryExponent n d
        = if d * 2 ^ c ≤ n * 2 ^ 0 then (c : Int) else (c : Int) - 1 := by
      simp only [binaryExponent, ha, hb, he0, Int.toNat_ofNat, Int.toNat_neg_nat]
    rw [hdef]
    split_ifs with hc
    · have t1 : (-(c : Int)).toNat = 0 := by omega
      have t2 : (-((c : Int) + 1)).toNat = 0 := by omega
      have t3 : ((c : Int) + 1).toNat = c + 1 := by omega
      rw [Int.toNat_ofNat, t1, t2, t3]
      refine ⟨hc, ?_⟩
      have h1 : (2 : Nat) ^ (b + c + 1) = 2 ^ b * 2 ^ (c + 1) := by rw [← pow_add]; ring_nf
      have h2 : 2 ^ b * 2 ^ (c + 1) ≤ d * 2 ^ (c + 1) := Nat.mul_le_mul_right _ hb1
      rw [pow_zero, mul_one]
      omega
    · cases c with
      | zero =>
        have t1 : ((0 : Nat) : Int) - 1 = -1 := by simp
        simp only [t1]
        have t2 : (-1 : Int).toNat = 0 := by decide
        have t3 : (-(-1 : Int)).toNat = 1 := by decide
        have t4 : (-((-1 : Int) + 1)).toNat = 0 := by decide
        have t5 : ((-1 : Int) + 1).toNat = 0 := by decide
        rw [t2, t3, t4, t5]
        simp only [pow_zero, mul_one, pow_one, Nat.add_zero] at hc ha1 hb2 ⊢
        rw [pow_succ] at hb2
        omega
      | succ c =>
        have t0 : ((c + 1 : Nat) : Int) - 1 = (c : Int) := by push_cast; ring
        rw [t0]
        have t1 : (-(c : Int)).toNat = 0 := by omega
        have t2 : (-((c : Int) + 1)).toNat = 0 := by omega
        have t3 : ((c : Int) + 1).toNat = c + 1 := by omega
        rw [Int.toNat_ofNat, t1, t2, t3]
        have h1 : (2 : Nat) ^ (b + (c + 1)) = 2 ^ (b + 1) * 2 ^ c := by rw [← pow_add]; ring_nf
        have h2 : d * 2 ^ c ≤ 2 ^ (b + 1) * 2 ^ c := Nat.mul_le_mul_right _ (le_of_lt hb2)
        simp only [pow_zero, mul_one] at hc ⊢
        constructor
        · omega
        · omega
  · obtain ⟨c, rfl⟩ := Nat.exists_eq_add_of_lt hab
    have he0 : ((a + 1 : Nat) : Int) - ((a + c + 1 + 1 : Nat) : Int) = -((c + 1 : Nat) : Int) := by
      push_cast
      ring
    have hdef : binaryExponent n d
        = if d * 2 ^ 0 ≤ n * 2 ^ (c + 1) then -((c + 1 : Nat) : Int)
          else -((c + 1 : Nat) : Int) - 1 := by
      simp only [binaryExponent, ha, hb, he0, Int.toNat_neg_nat, neg_neg, Int.toNat_ofNat]
    rw [hdef]
    split_ifs with hc
    · have t1 : (-((c + 1 : Nat) : Int)).toNat = 0 := by omega
      have t2 : (- -((c + 1 : Nat) : Int)).toNat = c + 1 := by omega
      have t3 : (-(-((c + 1 : Nat) : Int) + 1)).toNat = c := by omega
      have t4 : (-((c + 1 : Nat) : Int) + 1).toNat = 0 := by omega
      rw [t1, t2, t3, t4]
      refine ⟨hc, ?_⟩
      have h1 : (2 : Nat) ^ (a + c + 1) = 2 ^ (a + 1) * 2 ^ c := by rw [← pow_add]; ring_nf
      have h2 : n * 2 ^ c < 2 ^ (a + 1) * 2 ^ c :=
        Nat.mul_lt_mul_of_pos_right ha2 (pow_pos (by decide) c)
      rw [pow_zero, mul_one]
      omega
    · have t1 : (-((c + 1 : Nat) : Int) - 1).toNat = 0 := by omega
      have t2 : (-(-((c + 1 : Nat) : Int) - 1)).toNat = c + 2 := by omega
      have t3 : (-(-((c + 1 : Nat) : Int) - 1 + 1)).toNat = c + 1 := by omega
      have t4 : (-((c + 1 : Nat) : Int) - 1 + 1).toNat = 0 := by omega
      rw [t1, t2, t3, t4]
      have h1 : (2 : Nat) ^ (a + c + 1 + 1) = 2 ^ a * 2 ^ (c + 2) := by rw [← pow_add]; ring_nf
      have h2 : 2 ^ a * 2 ^ (c + 2) ≤ n * 2 ^ (c + 2) := Nat.mul_le_mul_right _ ha1
      simp only [pow_zero, mul_one] at hc ⊢
      constructor
      · omega
      · omega

/-- The test for a result beyond the largest double in `roundToDouble`: for a
rounded `m` of at most `2 ^ 53`, and at least `2 ^ 52` when the exponent `k`
is not negative, it says that `m * 2 ^ k` is at least `2 ^ 1024`. -/
theorem overflow_test_iff (m : Nat) (k : Int) (h1 : 0 ≤ k → 2 ^ 52 ≤ m) (h2 : m ≤ 2 ^ 53) :
    (971 < k ∨ (k = 971 ∧ 2 ^ 53 ≤ m)) ↔ 2 ^ 1024 ≤ m * 2 ^ k.toNat := by
  have e1 : (2 : Nat) ^ 1024 = 2 ^ 53 * 2 ^ 971 := by rw [← pow_add]
  have e2 : (2 : Nat) ^ 1024 = 2 ^ 52 * 2 ^ 972 := by rw [← pow_add]
  have e3 : (2 : Nat) ^ 1024 = 2 ^ 53 * 2 ^ 970 * 2 := by rw [← pow_add, ← pow_succ]
  have hpos : ∀ j : Nat, 0 < (2 : Nat) ^ j := fun j => pow_pos (by decide) j
  have hmono : ∀ a b : Nat, a ≤ b → (2 : Nat) ^ a ≤ 2 ^ b :=
    fun a b h => Nat.pow_le_pow_right (by decide) h
  have hone : ∀ j : Nat, j ≠ 0 → 1 < (2 : Nat) ^ j := fun j hj => Nat.one_lt_two_pow hj
  rcases lt_or_le k 0 with hk | hk
  · have ht : k.toNat = 0 := Int.toNat_eq_zero.mpr (le_of_lt hk)
    rw [ht, pow_zero, mul_one]
    constructor
    · intro h
      omega
    · intro h
      rw [e1] at h
      have h3 : (2 : Nat) ^ 53 * 2 ^ 971 ≤ 2 ^ 53 * 1 := by
        rw [mul_one]
        exact le_trans h h2
      have h4 : (2 : Nat) ^ 971 ≤ 1 := Nat.le_of_mul_le_mul_left h3 (hpos 53)
      exact absurd (lt_of_lt_of_le (hone 971 (Nat.succ_ne_zero 970)) h4) (lt_irrefl _)
  · obtain ⟨j, rfl⟩ := Int.eq_ofNat_of_zero_le hk
    have hm := h1 hk
    simp only [Int.toNat_ofNat]
    rcases Nat.lt_trichotomy j 971 with hj | hj | hj
    · constructor
      · intro h
        omega
      · intro h
        have h3 : m * 2 ^ j ≤ 2 ^ 53 * 2 ^ 970 :=
          Nat.mul_le_mul h2 (hmono j 970 (by omega))
        rw [e3] at h
        have h4 := le_trans h h3
        have h5 : 0 < (2 : Nat) ^ 53 * 2 ^ 970 := Nat.mul_pos (hpos 53) (hpos 970)
        omega
    · subst hj
      constructor
      · intro h
        rcases h with h | ⟨-, h⟩
        · omega
        · rw [e1]
          exact Nat.mul_le_mul_right _ h
      · intro h
        rw [e1] at h
        exact Or.inr ⟨rfl, Nat.le_of_mul_le_mul_right h (hpos 971)⟩
    · constructor
      · intro _
        rw [e2]
        exact Nat.mul_le_mul hm (hmono 972 j (by omega))
      · intro _
        exact Or.inl (by omega)

/-- Conversions of `parseDouble` at decimals whose nearest double is known:
one tenth, the largest double and the decimals just below and above the point
where the conversion turns to infinity, the smallest subnormal number and the
decimals around half of it, a number too small for a double, and the ties
above `2 ^ 53`. -/
theorem parseDouble_known_values :
    parseDouble "0.1" = some (mkRat 3602879701896397 (2 ^ 55))
    ∧ parseDouble "1.7976931348623157e308" = some (mkRat ((2 ^ 53 - 1) * 2 ^ 971) 1)
    ∧ parseDouble "1.7976931348623158e308" = some (mkRat ((2 ^ 53 - 1) * 2 ^ 971) 1)
    ∧ parseDouble "1.7976931348623159e308" = none
    ∧ parseDouble "1e309" = none
    ∧ parseDouble "4.9e-324" = some (mkRat 1 (2 ^ 1074))
    ∧ parseDouble "2.5e-324" = some (mkRat 1 (2 ^ 1074))
    ∧ parseDouble "2.4e-324" = some 0
    ∧ parseDouble "-1e-400" = some 0
    ∧ parseDouble "9007199254740993" = some 9007199254740992
    ∧ parseDouble "9007199254740995" = some 9007199254740996
    ∧ parseDouble "-1.5e2" = some (-150) := by
  decide!

/-- A line that holds an integer is taken by `getValidInteger` at once. -/
theorem getValidInteger_cons_some (prompt : String) (l : String) (rest : Cin) (out : Cout)
    (v : Int) (h : parseInt l = some v) :
    getValidInteger prompt (l :: rest) out = some (v, rest, out ++ [Item.str prompt]) := by
  simp [getValidInteger, getValidIntegerLoop, isBlank_of_parseInt h, h]

/-- A line that holds a number that is not negative is taken by
`getValidDouble` at once. -/
theorem getValidDouble_cons_some (prompt : String) (l : String) (rest : Cin) (out : Cout)
    (v : ℚ) (h : parseDouble l = some v) (hv : 0 ≤ v) :
    getValidDouble prompt (l :: rest) out = some (v, rest, out ++ [Item.str prompt]) := by
  simp [getValidDouble, getValidDoubleLoop, isBlank_of_parseDouble h, h, hv]

/-- A successful `getValidInteger` has read at least one line. -/
theorem getValidIntegerLoop_length (prompt : String) :
    ∀ (cin : Cin) (out : Cout) (v : Int) (cin1 : Cin) (out1 : Cout),
      getValidIntegerLoop prompt cin out = some (v, cin1, out1) → cin1.length < cin.length
  | [], _, _, _, _, h => by simp [getValidIntegerLoop] at h
  | l :: rest, out, v, cin1, out1, h => by
    unfold getValidIntegerLoop at h
    split at h
    · have := getValidIntegerLoop_length prompt rest _ _ _ _ h
      simp; omega
    · split at h
      · simp at h; obtain ⟨-, h2, -⟩ := h; subst h2; simp
      · have := getValidIntegerLoop_length prompt rest _ _ _ _ h
        simp; omega

theorem getValidInteger_length {prompt : String} {cin : Cin} {out : Cout} {v : Int} {cin1 : Cin}
    {out1 : Cout} (h : getValidInteger prompt cin out = some (v, cin1, out1)) :
    cin1.length < cin.length :=
  getValidIntegerLoop_length prompt cin _ v cin1 out1 h

end EMS

/-! ## The record store -/

namespace EMS

theorem mem_records {s : EmployeeManagementSystem} {r : Employee} :
    r ∈ s.records ↔ ∃ a, (a, r) ∈ s.employees := by
  simp [EmployeeManagementSystem.records]

theorem userIdExists_eq_true_iff (employees : List (Nat × Employee)) (id : Int) :
    userIdExists employees id = true ↔ ∃ emp ∈ employees, emp.2.userId = id := by
  induction employees with
  | nil => simp [userIdExists]
  | cons emp rest ih =>
    unfold userIdExists
    by_cases h : emp.2.userId = id
    · simp [h]
    · simp [h, ih]

theorem userIdExists_eq_false_iff (employees : List (Nat × Employee)) (id : Int) :
    userIdExists employees id = false ↔ ∀ emp ∈ employees, emp.2.userId ≠ id := by
  rw [← Bool.not_eq_true, userIdExists_eq_true_iff]
  simp

theorem userIdExists_of_record {s : EmployeeManagementSystem} {id : Int}
    (h : ∃ r ∈ s.records, r.userId = id) : userIdExists s.employees id = true := by
  rw [userIdExists_eq_true_iff]
  obtain ⟨r, hr, hid⟩ := h
  obtain ⟨a, ha⟩ := mem_records.mp hr
  exact ⟨(a, r), ha, hid⟩

theorem userIdExists_false_of_records {s : EmployeeManagementSystem} {id : Int}
    (h : ∀ r ∈ s.records, r.userId ≠ id) : userIdExists s.employees id = false := by
  rw [userIdExists_eq_false_iff]
  intro emp hemp
  exact h emp.2 (mem_records.mpr ⟨emp.1, hemp⟩)

theorem records_of_userIdExists_false {s : EmployeeManagementSystem} {id : Int}
    (h : userIdExists s.employees id = false) : ∀ r ∈ s.records, r.userId ≠ id := by
  rw [userIdExists_eq_false_iff] at h
  intro r hr
  obtain ⟨a, ha⟩ := mem_records.mp hr
  exact h (a, r) ha

theorem findById_eq_none_iff (employees : List (Nat × Employee)) (id : Int) :
    findById employees id = none ↔ ∀ emp ∈ employees, emp.2.userId ≠ id := by
  induction employees with
  | nil => simp [findById]
  | cons emp rest ih =>
    unfold findById
    by_cases h : emp.2.userId = id
    · simp [h]
    · simp [h, ih]

theorem findById_none_of_records {s : EmployeeManagementSystem} {id : Int}
    (h : ∀ r ∈ s.records, r.userId ≠ id) : findById s.employees id = none := by
  rw [findById_eq_none_iff]
  intro emp hemp
  exact h emp.2 (mem_records.mpr ⟨emp.1, hemp⟩)

/-- The slot `findById` delivers is the first one whose object has the id. -/
theorem findById_append_cons (pre post : List (Nat × Employee)) (emp : Nat × Employee)
    (id : Int) (hpre : ∀ x ∈ pre, x.2.userId ≠ id) (hid : emp.2.userId = id) :
    findById (pre ++ emp :: post) id = some emp := by
  induction pre with
  | nil => simp [findById, hid]
  | cons x pre ih =>
    have hx : x.2.userId ≠ id := hpre x (by simp)
    simp only [List.cons_append, findById, hx, if_false]
    exact ih (fun y hy => hpre y (by simp [hy]))

theorem findById_eq_some (employees : List (Nat × Employee)) (id : Int) (emp : Nat × Employee)
    (h : findById employees id = some emp) :
    ∃ pre post, employees = pre ++ emp :: post ∧ emp.2.userId = id
      ∧ ∀ x ∈ pre, x.2.userId ≠ id := by
  induction employees with
  | nil => simp [findById] at h
  | cons x rest ih =>
    unfold findById at h
    by_cases hx : x.2.userId = id
    · simp only [hx, if_true, Option.some.injEq] at h
      subst h
      exact ⟨[], rest, rfl, hx, by simp⟩
    · simp only [hx, if_false] at h
      obtain ⟨pre, post, h1, h2, h3⟩ := ih h
      refine ⟨x :: pre, post, by simp [h1], h2, ?_⟩
      intro y hy
      rcases List.mem_cons.mp hy with rfl | hy
      · exact hx
      · exact h3 y hy

theorem findIf_eq_none (employees : List (Nat × Employee)) (id : Int)
    (h : ∀ emp ∈ employees, emp.2.userId ≠ id) : findIf employees id = none := by
  induction employees with
  | nil => simp [findIf]
  | cons emp rest ih =>
    have hx : emp.2.userId ≠ id := h emp (by simp)
    simp only [findIf, hx, if_false, ih (fun y hy => h y (by simp [hy])), Option.map_none']

/-- The position `find_if` delivers is that of the first slot whose object has
the id. -/
theorem findIf_append_cons (pre post : List (Nat × Employee)) (emp : Nat × Employee)
    (id : Int) (hpre : ∀ x ∈ pre, x.2.userId ≠ id) (hid : emp.2.userId = id) :
    findIf (pre ++ emp :: post) id = some pre.length := by
  induction pre with
  | nil => simp [findIf, hid]
  | cons x pre ih =>
    have hx : x.2.userId ≠ id := hpre x (by simp)
    have ih2 := ih (fun y hy => hpre y (by simp [hy]))
    show findIf (x :: (pre ++ emp :: post)) id = some (pre.length + 1)
    simp only [findIf, hx, if_false, ih2, Option.map_some']

theorem findIf_eq_some (employees : List (Nat × Employee)) (id : Int) :
    ∀ (it : Nat), findIf employees id = some it →
      ∃ pre emp post, employees = pre ++ emp :: post ∧ pre.length = it := by
  induction employees with
  | nil => intro it h; simp [findIf] at h
  | cons x rest ih =>
    intro it h
    unfold findIf at h
    by_cases hx : x.2.userId = id
    · simp only [hx, if_true, Option.some.injEq] at h
      exact ⟨[], x, rest, rfl, by simpa using h⟩
    · simp only [hx, if_false] at h
      cases hr : findIf rest id with
      | none => simp [hr] at h
      | some j =>
        simp only [hr, Option.map_some', Option.some.injEq] at h
        obtain ⟨pre, emp, post, h1, h2⟩ := ih j hr
        exact ⟨x :: pre, emp, post, by simp [h1], by simp [h2, h]⟩

theorem get?_append_cons (pre post : List (Nat × Employee)) (emp : Nat × Employee) :
    (pre ++ emp :: post).get? pre.length = some emp := by
  induction pre with
  | nil => rfl
  | cons x pre ih => simpa using ih

theorem eraseIdx_append_cons (pre post : List (Nat × Employee)) (emp : Nat × Employee) :
    (pre ++ emp :: post).eraseIdx pre.length = pre ++ post := by
  induction pre with
  | nil => rfl
  | cons x pre ih => simp [List.eraseIdx, ih]

/-- With distinct addresses, the object at the address of a slot is the
object of that slot. -/
theorem lookup_of_mem (employees : List (Nat × Employee)) (a : Nat) (e : Employee)
    (hnd : (employees.map Prod.fst).Nodup) (hmem : (a, e) ∈ employees) :
    lookup employees a = some e := by
  induction employees with
  | nil => simp at hmem
  | cons x rest ih =>
    simp only [List.map_cons, List.nodup_cons] at hnd
    rcases List.mem_cons.mp hmem with h | h
    · subst h
      simp [lookup]
    · have hx : x.1 ≠ a := by
        intro hxa
        apply hnd.1
        rw [hxa]
        exact List.mem_map.mpr ⟨(a, e), h, rfl⟩
      simp only [lookup, hx, if_false]
      exact ih hnd.2 h

theorem store_of_not_mem (employees : List (Nat × Employee)) (a : Nat)
    (f : Employee → Employee) (h : a ∉ employees.map Prod.fst) :
    store employees a f = employees := by
  induction employees with
  | nil => rfl
  | cons x rest ih =>
    simp only [List.map_cons, List.mem_cons, not_or] at h
    have hx : x.1 ≠ a := fun hxa => h.1 hxa.symm
    have ih2 := ih h.2
    simp only [store] at ih2 ⊢
    simp [hx, ih2]

/-- With distinct addresses, a write through the address of a slot changes
the object of that slot and no other. -/
theorem store_append_cons (pre post : List (Nat × Employee)) (a : Nat) (e : Employee)
    (f : Employee → Employee) (hnd : ((pre ++ (a, e) :: post).map Prod.fst).Nodup) :
    store (pre ++ (a, e) :: post) a f = pre ++ (a, f e) :: post := by
  have h1 : a ∉ pre.map Prod.fst := by
    intro hmem
    rw [List.map_append, List.nodup_append] at hnd
    exact hnd.2.2 hmem (by simp)
  have h2 : a ∉ post.map Prod.fst := by
    rw [List.map_append, List.nodup_append] at hnd
    have := hnd.2.1
    simp only [List.map_cons, List.nodup_cons] at this
    exact this.1
  have e1 := store_of_not_mem pre a f h1
  have e2 := store_of_not_mem post a f h2
  simp only [store] at e1 e2 ⊢
  simp [e1, e2]

/-- A write that keeps the id of the object keeps the ids of the store. -/
theorem store_userIds (employees : List (Nat × Employee)) (a : Nat) (f : Employee → Employee)
    (hf : ∀ e, (f e).userId = e.userId) :
    (store employees a f).map (fun emp => emp.2.userId)
      = employees.map (fun emp => emp.2.userId) := by
  induction employees with
  | nil => rfl
  | cons x rest ih =>
    simp only [store] at ih ⊢
    by_cases hx : x.1 = a <;> simp [hx, hf, ih]

theorem addEmployeeSwitch_userId (choice : Int) (name : String) (userId : Int)
    (department position : String) (salary : ℚ) :
    (addEmployeeSwitch choice name userId department position salary).1.userId = userId := by
  unfold addEmployeeSwitch
  split_ifs <;> rfl

/-- The id the loop of `addEmployee` delivers is the id of no record. -/
theorem addEmployeeIdLoop_fresh (employees : List (Nat × Employee)) :
    ∀ (fuel : Nat) (cin : Cin) (out : Cout) (id : Int) (cin1 : Cin) (out1 : Cout),
      addEmployeeIdLoop employees fuel cin out = some (id, cin1, out1) →
        userIdExists employees id = false
  | 0, _, _, _, _, _, h => by simp [addEmployeeIdLoop] at h
  | fuel + 1, cin, out, id, cin1, out1, h => by
    unfold addEmployeeIdLoop at h
    split at h
    · cases h
    · split at h
      · exact addEmployeeIdLoop_fresh employees fuel _ _ _ _ _ h
      · simp at h
        obtain ⟨h1, -, -⟩ := h
        subst h1
        simpa using ‹¬ userIdExists employees _ = true›

/-- Entries that are ids of records are each rejected; the first other
integer is delivered. -/
theorem addEmployeeIdLoop_dups (employees : List (Nat × Employee)) (idLine : String)
    (userId : Int) (tail : Cin) (hid : parseInt idLine = some userId)
    (hfresh : userIdExists employees userId = false) :
    ∀ (dups : List String) (fuel : Nat) (out : Cout),
      (∀ l ∈ dups, ∃ i, parseInt l = some i ∧ userIdExists employees i = true) →
      dups.length < fuel →
      addEmployeeIdLoop employees fuel (dups ++ idLine :: tail) out =
        some (userId, tail, out ++ rejectedIds dups ++ [Item.str "Enter unique User ID: "])
  | _, 0, _, _, hf => by omega
  | [], fuel + 1, out, _, _ => by
    simp [addEmployeeIdLoop, getValidInteger_cons_some _ _ _ _ _ hid, hfresh, rejectedIds]
  | l :: dups, fuel + 1, out, hd, hf => by
    obtain ⟨i, hi, hex⟩ := hd l (by simp)
    have ih := addEmployeeIdLoop_dups employees idLine userId tail hid hfresh dups fuel
      (out ++ [Item.str "Enter unique User ID: "] ++
        [Item.str "User ID already exists. Please choose a different ID.", Item.endl])
      (fun l hl => hd l (by simp [hl])) (by simpa using hf)
    simp only [List.cons_append, addEmployeeIdLoop, getValidInteger_cons_some _ _ _ _ _ hi, hex,
      if_true, ih]
    simp [rejectedIds, List.append_assoc]

end EMS

/-! ## Adding a record -/

namespace EMS

/-- What a call of `addEmployee` that returns has done: nothing, for a
current user who is not HR; otherwise it has appended one record, whose id no
record had, behind the unchanged slots, and kept the current user. -/
theorem addEmployee_result (s : EmployeeManagementSystem) (cin : Cin) (out : Cout)
    (s1 : EmployeeManagementSystem) (cin1 : Cin) (out1 : Cout)
    (h : addEmployee s cin out = some (s1, cin1, out1)) :
    (∃ u, s.current = some u ∧ u.getUserType ≠ "HR" ∧ s1 = s)
    ∨ ∃ e : Employee, s1.employees = s.employees ++ [(newAddr s.employees, e)]
        ∧ s1.records = s.records ++ [e]
        ∧ (∀ r ∈ s.records, r.userId ≠ e.userId)
        ∧ s1.currentUser = s.currentUser := by
  cases hu : s.current with
  | none => simp [addEmployee, hu] at h
  | some u =>
    by_cases hHR : u.getUserType = "HR"
    · right
      simp only [addEmployee, hu, hHR, ne_eq, not_true_eq_false, if_false] at h
      split at h
      · cases h
      · rename_i userId2 cin2 out2 hloop
        split at h
        · cases h
        · split at h
          · cases h
          · simp only [Option.some.injEq, Prod.mk.injEq] at h
            obtain ⟨h1, -, -⟩ := h
            subst h1
            have hfr := addEmployeeIdLoop_fresh _ _ _ _ _ _ _ hloop
            refine ⟨_, rfl, ?_, ?_, rfl⟩
            · simp [EmployeeManagementSystem.records, pushBackNew]
            · rw [addEmployeeSwitch_userId]
              exact records_of_userIdExists_false hfr
    · left
      simp only [addEmployee, hu, hHR, ne_eq, not_false_eq_true, if_true, Option.some.injEq,
        Prod.mk.injEq] at h
      exact ⟨u, rfl, hHR, h.1.symm⟩

/-- C1. In an HR session `addEmployee` rejects every entered id that is the id
of a record (for each it writes the message and asks again, and appends
nothing), and the one record it appends, last and behind the unchanged old
slots, has an id that no record of the store had: first for an input that
enters the ids of records `dups` and then a new id, with the exact result;
then for every input on which `addEmployee` returns. -/
theorem addEmployee_rejects_existing_id (s : EmployeeManagementSystem) (u : Employee)
    (name : String) (dups : List String)
    (idLine department position salaryLine choiceLine : String) (rest : Cin) (out : Cout)
    (userId : Int) (salary : ℚ) (choice : Int)
    (hu : s.current = some u) (hHR : u.getUserType = "HR")
    (hdups : ∀ l ∈ dups, ∃ r ∈ s.records, parseInt l = some r.userId)
    (hid : parseInt idLine = some userId) (hfresh : ∀ r ∈ s.records, r.userId ≠ userId)
    (hsal : parseDouble salaryLine = some salary) (hnn : 0 ≤ salary)
    (hch : parseInt choiceLine = some choice) :
    addEmployee s
        (name :: (dups ++ idLine :: department :: position :: salaryLine :: choiceLine :: rest))
        out
      = some
        ({ employees := s.employees ++
            [(newAddr s.employees,
              { name := name, userId := userId, department := department, position := position,
                salary := salary,
                cls := (addEmployeeSwitch choice name userId department position salary).1.cls })],
           currentUser := s.currentUser },
         rest,
         out ++ [Item.str "\n=== Add New Employee ===", Item.endl,
            Item.str "Enter employee name: "]
          ++ rejectedIds dups
          ++ [Item.str "Enter unique User ID: ", Item.str "Enter department: ",
            Item.str "Enter position: ", Item.str "Enter salary: $",
            Item.str "\nSelect employee type:", Item.endl,
            Item.str "1. HR Employee", Item.endl,
            Item.str "2. Management Employee", Item.endl,
            Item.str "3. General Employee", Item.endl,
            Item.str "Enter choice (1-3): "]
          ++ (addEmployeeSwitch choice name userId department position salary).2
          ++ [Item.str "\nEmployee added successfully!", Item.endl])
    ∧ ∀ (cin0 : Cin) (out0 : Cout) (s1 : EmployeeManagementSystem) (cin1 : Cin) (out1 : Cout),
        addEmployee s cin0 out0 = some (s1, cin1, out1) →
          ∃ e : Employee, s1.employees = s.employees ++ [(newAddr s.employees, e)]
            ∧ s1.records = s.records ++ [e]
            ∧ (∀ r ∈ s.records, r.userId ≠ e.userId)
            ∧ s1.currentUser = s.currentUser := by
  constructor
  · have hloop := addEmployeeIdLoop_dups s.employees idLine userId
      (department :: position :: salaryLine :: choiceLine :: rest) hid
      (userIdExists_false_of_records hfresh) dups
      (dups ++ idLine :: department :: position :: salaryLine :: choiceLine :: rest).length
      (out ++ [Item.str "\n=== Add New Employee ===", Item.endl] ++
        [Item.str "Enter employee name: "])
      (fun l hl => by
        obtain ⟨r, hr, hp⟩ := hdups l hl
        exact ⟨r.userId, hp, userIdExists_of_record ⟨r, hr, rfl⟩⟩)
      (by simp)
    simp only [addEmployee, hu, hHR, getStringInput, hloop,
      getValidDouble_cons_some _ _ _ _ _ hsal hnn, getValidInteger_cons_some _ _ _ _ _ hch]
    simp [pushBackNew, addEmployeeSwitch, HREmployee, ManagementEmployee, GeneralEmployee]
    split_ifs <;> simp
  · intro cin0 out0 s1 cin1 out1 h
    rcases addEmployee_result s cin0 out0 s1 cin1 out1 h with ⟨v, hv, hnot, -⟩ | hres
    · rw [hu] at hv
      cases hv
      exact absurd hHR hnot
    · exact hres

theorem addEmployee_rejects_existing_id_witness :
    (seededAs 1).current
        = some (HREmployee "Sarah Johnson" 1001 "Human Resources" "HR Manager" 75000)
    ∧ (HREmployee "Sarah Johnson" 1001 "Human Resources" "HR Manager" 75000).getUserType = "HR"
    ∧ (∀ l ∈ ["1001", "3002"], ∃ r ∈ (seededAs 1).records, parseInt l = some r.userId)
    ∧ parseInt "4001" = some 4001
    ∧ (∀ r ∈ (seededAs 1).records, r.userId ≠ 4001)
    ∧ parseDouble "50000" = some 50000
    ∧ (0 : ℚ) ≤ 50000
    ∧ parseInt "2" = some 2
    ∧ addEmployee (seededAs 1) ["Zed", "1001", "3002", "4001", "IT", "Dev", "50000", "2", "6"] []
      = some
        ({ employees := (seededAs 1).employees ++
            [(6, ManagementEmployee "Zed" 4001 "IT" "Dev" 50000)],
           currentUser := some 1 },
         ["6"],
         [Item.str "\n=== Add New Employee ===", Item.endl, Item.str "Enter employee name: ",
          Item.str "Enter unique User ID: ",
          Item.str "User ID already exists. Please choose a different ID.", Item.endl,
          Item.str "Enter unique User ID: ",
          Item.str "User ID already exists. Please choose a different ID.", Item.endl,
          Item.str "Enter unique User ID: ", Item.str "Enter department: ",
          Item.str "Enter position: ", Item.str "Enter salary: $",
          Item.str "\nSelect employee type:", Item.endl,
          Item.str "1. HR Employee", Item.endl,
          Item.str "2. Management Employee", Item.endl,
          Item.str "3. General Employee", Item.endl,
          Item.str "Enter choice (1-3): ",
          Item.str "\nEmployee added successfully!", Item.endl]) := by
  have hsal : parseDouble "50000" = some 50000 := by
    decide
  refine ⟨by decide, by decide, by decide, by decide, by decide, hsal, by norm_num, by decide, ?_⟩
  exact (addEmployee_rejects_existing_id (seededAs 1)
    (HREmployee "Sarah Johnson" 1001 "Human Resources" "HR Manager" 75000)
    "Zed" ["1001", "3002"] "4001" "IT" "Dev" "50000" "2" ["6"] [] 4001 50000 2
    (by decide) (by decide) (by decide) (by decide) (by decide) hsal (by norm_num)
    (by decide)).1

end EMS

/-! ## Access control -/

namespace EMS

/-- C2. In an HR session, when the id entered to `deleteEmployee` is the id of
the logged-in record, the call returns with the system (store and session)
unchanged and with the input left as it was right after the id: the deletion
is refused before any confirmation is read. -/
theorem deleteEmployee_own_id_rejected (s : EmployeeManagementSystem) (u : Employee)
    (cin cin1 : Cin) (out out1 : Cout)
    (hu : s.current = some u) (hHR : u.getUserType = "HR")
    (hread : getValidInteger "Enter User ID of employee to delete: " cin
      (out ++ [Item.str "\n=== Delete Employee ===", Item.endl]) = some (u.userId, cin1, out1)) :
    deleteEmployee s cin out
      = some (s, cin1,
          out1 ++ [Item.str "Cannot delete your own account while logged in.", Item.endl]) := by
  simp [deleteEmployee, hu, hHR, hread]

theorem deleteEmployee_own_id_rejected_witness :
    (seededAs 1).current
        = some (HREmployee "Sarah Johnson" 1001 "Human Resources" "HR Manager" 75000)
    ∧ (HREmployee "Sarah Johnson" 1001 "Human Resources" "HR Manager" 75000).getUserType = "HR"
    ∧ deleteEmployee (seededAs 1) ["one", "1001", "y", "6"] []
      = some (seededAs 1, ["y", "6"],
          [Item.str "\n=== Delete Employee ===", Item.endl,
           Item.str "Enter User ID of employee to delete: ",
           Item.str "Invalid input. Please enter a number.", Item.endl,
           Item.str "Enter User ID of employee to delete: ",
           Item.str "Cannot delete your own account while logged in.", Item.endl]) :=
  ⟨by decide, by decide,
    deleteEmployee_own_id_rejected (seededAs 1)
      (HREmployee "Sarah Johnson" 1001 "Human Resources" "HR Manager" 75000)
      ["one", "1001", "y", "6"] ["y", "6"] []
      [Item.str "\n=== Delete Employee ===", Item.endl,
       Item.str "Enter User ID of employee to delete: ",
       Item.str "Invalid input. Please enter a number.", Item.endl,
       Item.str "Enter User ID of employee to delete: "]
      (by decide) (by decide) (by decide)⟩

/-- The function `viewEmployees` returns whenever there is a current user, and
leaves the system and the input as they are. -/
theorem viewEmployees_state (s : EmployeeManagementSystem) (u : Employee) (cin : Cin)
    (out : Cout) (hu : s.current = some u) :
    ∃ out1, viewEmployees s cin out = some (s, cin, out1) := by
  simp only [viewEmployees, hu]
  split_ifs <;> exact ⟨_, rfl⟩

/-- The function `searchEmployees` leaves the system as it is. -/
theorem searchEmployees_state (s s1 : EmployeeManagementSystem) (cin cin1 : Cin)
    (out out1 : Cout) (h : searchEmployees s cin out = some (s1, cin1, out1)) : s1 = s := by
  unfold searchEmployees at h
  split at h
  · cases h
  · split_ifs at h
    · simp only [Option.some.injEq, Prod.mk.injEq] at h
      exact h.1.symm
    · split at h
      · cases h
      · split at h
        · cases h
        · simp only [Option.some.injEq, Prod.mk.injEq] at h
          exact h.1.symm

/-- The main loop of a Management session ends with the system it began with. -/
theorem mainLoop_management_state (u : Employee) (hM : u.getUserType = "Management") :
    ∀ (fuel : Nat) (s : EmployeeManagementSystem) (cin : Cin) (out : Cout)
      (s1 : EmployeeManagementSystem) (cin1 : Cin) (out1 : Cout),
      s.current = some u → mainLoop fuel s cin out = some (s1, cin1, out1) → s1 = s
  | 0, _, _, _, _, _, _, _, h => by simp [mainLoop] at h
  | fuel + 1, s, cin, out, s1, cin1, out1, hu, h => by
    simp only [mainLoop, hu, hM] at h
    split at h
    · cases h
    · rename_i choice cin2 out2 hread
      split_ifs at h with hlog
      · simp only [Option.some.injEq, Prod.mk.injEq] at h
        exact h.1.symm
      · split at h
        · cases h
        · rename_i s3 cin3 out3 hperf
          have hs3 : s3 = s := by
            simp only [menuAction] at hperf hlog
            simp only [String.reduceEq, if_false, if_true] at hperf hlog
            split_ifs at hperf hlog
            · obtain ⟨o, ho⟩ := viewEmployees_state s u cin2 out2 hu
              simp only [perform, ho, Option.some.injEq, Prod.mk.injEq] at hperf
              exact hperf.1.symm
            · exact searchEmployees_state _ _ _ _ _ _ hperf
            all_goals
              simp only [perform, Option.some.injEq, Prod.mk.injEq] at hperf
              exact hperf.1.symm
          subst hs3
          exact mainLoop_management_state u hM fuel _ _ _ _ _ _ hu h

/-- C3. In a Management session `addEmployee`, `modifyEmployee` and
`deleteEmployee` each return at once, with the system (records, their fields,
their order, and the session) and the input unchanged, whatever the input is;
the `switch` of the main loop takes a Management user to none of the three for
any choice, and the main loop of a Management session ends with the system it
began with. -/
theorem management_cannot_add_modify_delete (s : EmployeeManagementSystem) (u : Employee)
    (hu : s.current = some u) (hM : u.getUserType = "Management") :
    (∀ (cin : Cin) (out : Cout),
      addEmployee s cin out
        = some (s, cin, out ++ [Item.str "Access denied. Only HR can add employees.", Item.endl])
      ∧ modifyEmployee s cin out
        = some (s, cin,
            out ++ [Item.str "Access denied. Only HR can modify employee information.",
              Item.endl])
      ∧ deleteEmployee s cin out
        = some (s, cin,
            out ++ [Item.str "Access denied. Only HR can delete employees.", Item.endl]))
    ∧ (∀ choice : Int,
        menuAction u.getUserType choice ≠ Action.addEmployee
        ∧ menuAction u.getUserType choice ≠ Action.modifyEmployee
        ∧ menuAction u.getUserType choice ≠ Action.deleteEmployee)
    ∧ (∀ (fuel : Nat) (cin : Cin) (out : Cout) (s1 : EmployeeManagementSystem) (cin1 : Cin)
        (out1 : Cout), mainLoop fuel s cin out = some (s1, cin1, out1) → s1 = s) := by
  refine ⟨fun cin out => ⟨?_, ?_, ?_⟩, fun choice => ?_, ?_⟩
  · simp [addEmployee, hu, hM]
  · simp [modifyEmployee, hu, hM]
  · simp [deleteEmployee, hu, hM]
  · simp only [hM, menuAction, String.reduceEq, if_false, if_true]
    split_ifs <;> simp
  · intro fuel cin out s1 cin1 out1 h
    exact mainLoop_management_state u hM fuel s cin out s1 cin1 out1 hu h

theorem management_cannot_add_modify_delete_witness :
    (seededAs 2).current
        = some (ManagementEmployee "Mike Davis" 2001 "Operations" "Operations Manager" 85000)
    ∧ (ManagementEmployee "Mike Davis" 2001 "Operations" "Operations Manager" 85000).getUserType
        = "Management"
    ∧ deleteEmployee (seededAs 2) ["3001", "y"] []
        = some (seededAs 2, ["3001", "y"],
            [Item.str "Access denied. Only HR can delete employees.", Item.endl]) :=
  ⟨by decide, by decide,
    by simpa using ((management_cannot_add_modify_delete (seededAs 2)
      (ManagementEmployee "Mike Davis" 2001 "Operations" "Operations Manager" 85000)
      (by decide) (by decide)).1 ["3001", "y"] []).2.2⟩

/-- The main loop of a General session: its output and the input it leaves
depend on the logged-in record only, not on the rest of the store. -/
theorem mainLoop_general (s s2 : EmployeeManagementSystem) (u : Employee)
    (hu : s.current = some u) (hu2 : s2.current = some u) (hG : u.getUserType = "General") :
    ∀ (fuel : Nat) (cin : Cin) (out : Cout),
      (mainLoop fuel s cin out).map Prod.snd = (mainLoop fuel s2 cin out).map Prod.snd
  | 0, _, _ => by simp [mainLoop]
  | fuel + 1, cin, out => by
    simp only [mainLoop, hu, hu2]
    cases hread : getValidInteger (menuPrompt u.getUserType) cin (out ++ displayMenu u) with
    | none => rfl
    | some r =>
      obtain ⟨choice, cin1, out1⟩ := r
      simp only [hG, menuAction, String.reduceEq, if_false]
      by_cases h1 : choice = 1
      · simp only [h1, if_true, perform, viewEmployees, hu, hu2, hG]
        simp only [reduceCtorEq, if_false]
        exact mainLoop_general s s2 u hu hu2 hG fuel _ _
      · by_cases h2 : choice = 2
        · simp [h1, h2]
        · simp only [h1, h2, if_false, perform]
          simp only [reduceCtorEq, if_false]
          exact mainLoop_general s s2 u hu hu2 hG fuel _ _

/-- C4. In a General session `viewEmployees` writes the heading and the
logged-in record and nothing else, and `searchEmployees` is refused before it
reads anything and writes no record; so what the calls and the whole menu
loop write (and read) is the same for any two systems that agree on the
logged-in record. -/
theorem general_session_shows_own_record_only (s s2 : EmployeeManagementSystem) (u : Employee)
    (hu : s.current = some u) (hu2 : s2.current = some u) (hG : u.getUserType = "General") :
    (∀ (cin : Cin) (out : Cout),
      viewEmployees s cin out
        = some (s, cin,
            out ++ [Item.str "\n=== Your Employee Information ===", Item.endl] ++ u.displayInfo)
      ∧ searchEmployees s cin out
        = some (s, cin, out ++ [Item.str
            "Access denied. General employees can only view their own information.",
            Item.endl]))
    ∧ (∀ (cin : Cin) (out : Cout),
      (viewEmployees s cin out).map Prod.snd = (viewEmployees s2 cin out).map Prod.snd
      ∧ (searchEmployees s cin out).map Prod.snd = (searchEmployees s2 cin out).map Prod.snd)
    ∧ (∀ (fuel : Nat) (cin : Cin) (out : Cout),
      (mainLoop fuel s cin out).map Prod.snd = (mainLoop fuel s2 cin out).map Prod.snd) := by
  refine ⟨fun cin out => ⟨?_, ?_⟩, fun cin out => ⟨?_, ?_⟩, ?_⟩
  · simp [viewEmployees, hu, hG]
  · simp [searchEmployees, hu, hG]
  · simp [viewEmployees, hu, hu2, hG]
  · simp [searchEmployees, hu, hu2, hG]
  · exact mainLoop_general s s2 u hu hu2 hG

theorem general_session_shows_own_record_only_witness :
    (seededAs 3).current
        = some (GeneralEmployee "John Smith" 3001 "IT" "Software Developer" 65000)
    ∧ johnAlone.current
        = some (GeneralEmployee "John Smith" 3001 "IT" "Software Developer" 65000)
    ∧ (GeneralEmployee "John Smith" 3001 "IT" "Software Developer" 65000).getUserType
        = "General"
    ∧ (mainLoop 3 (seededAs 3) ["1", "", "7", "", "2", "x"] []).map Prod.snd
        = (mainLoop 3 johnAlone ["1", "", "7", "", "2", "x"] []).map Prod.snd :=
  ⟨by decide, by decide, by decide,
    (general_session_shows_own_record_only (seededAs 3) johnAlone
      (GeneralEmployee "John Smith" 3001 "IT" "Software Developer" 65000)
      (by decide) (by decide) (by decide)).2.2 3 ["1", "", "7", "", "2", "x"] []⟩

/-! ## Searching -/

/-- The function `find` reports a position exactly when the text occurs. -/
theorem strFind_isSome_iff (needle : List Char) :
    ∀ hay : List Char, (strFind needle hay).isSome = true ↔ needle <:+: hay
  | [] => by
    by_cases h : needle = [] <;> simp [strFind, h]
  | c :: t => by
    have ih := strFind_isSome_iff needle t
    simp only [strFind]
    rw [List.infix_cons_iff, ← ih]
    by_cases h : needle.isPrefixOf (c :: t) = true
    · simp only [h, if_true, Option.isSome_some, true_iff]
      exact Or.inl (List.isPrefixOf_iff_prefix.mp h)
    · have h2 : ¬ needle <+: c :: t := fun hp => h (List.isPrefixOf_iff_prefix.mpr hp)
      simp [h, h2]

theorem strFind_isSome_eq (text str : String) :
    (strFind text.data str.data).isSome = decide (containsText text str) := by
  rw [Bool.eq_iff_iff, strFind_isSome_iff]
  simp [containsText]

/-- The loop of the search by name writes the records whose name contains
the text, in store order, and sets the flag when there is one. -/
theorem searchNameLoop_eq (text : String) :
    ∀ (employees : List (Nat × Employee)) (found : Bool) (out : Cout),
      searchNameLoop text employees found out
        = (found || ((employees.map Prod.snd).filter
              (fun e => decide (containsText text e.name))).length != 0,
            out ++ searchResults ((employees.map Prod.snd).filter
              (fun e => decide (containsText text e.name))))
  | [], found, out => by simp [searchNameLoop, searchResults]
  | emp :: rest, found, out => by
    unfold searchNameLoop
    rw [strFind_isSome_eq]
    by_cases h : containsText text emp.2.name
    · simp [h, searchNameLoop_eq text rest, searchResults, List.append_assoc]
    · simp [h, searchNameLoop_eq text rest]

/-- The loop of the search by department writes the records whose department
contains the text, in store order, and sets the flag when there is one. -/
theorem searchDeptLoop_eq (text : String) :
    ∀ (employees : List (Nat × Employee)) (found : Bool) (out : Cout),
      searchDeptLoop text employees found out
        = (found || ((employees.map Prod.snd).filter
              (fun e => decide (containsText text e.department))).length != 0,
            out ++ searchResults ((employees.map Prod.snd).filter
              (fun e => decide (containsText text e.department))))
  | [], found, out => by simp [searchDeptLoop, searchResults]
  | emp :: rest, found, out => by
    unfold searchDeptLoop
    rw [strFind_isSome_eq]
    by_cases h : containsText text emp.2.department
    · simp [h, searchDeptLoop_eq text rest, searchResults, List.append_assoc]
    · simp [h, searchDeptLoop_eq text rest]

/-- C5. In a session that is not General, once the search option read is 2
(by name) or 3 (by department) and the next line is the search text,
`searchEmployees` writes exactly the records of the store whose name
(department) contains the text as a run of consecutive characters, compared
character by character, each once and in store order; and when there is no
such record it writes no record and the message that none was found. The
system is unchanged. -/
theorem searchEmployees_by_substring (s : EmployeeManagementSystem) (u : Employee)
    (cin rest : Cin) (out out1 : Cout) (text : String) (option : Int)
    (hu : s.current = some u) (hNG : u.getUserType ≠ "General")
    (hread : getValidInteger "Enter search option (1-3): " cin
      (out ++ [Item.str "\n=== Search Employees ===", Item.endl,
        Item.str "1. Search by User ID", Item.endl,
        Item.str "2. Search by Name", Item.endl,
        Item.str "3. Search by Department", Item.endl]) = some (option, text :: rest, out1)) :
    (option = 2 →
      searchEmployees s cin out
        = some (s, rest,
            out1 ++ [Item.str "Enter name to search: "]
              ++ searchResults (s.records.filter (fun e => decide (containsText text e.name)))
              ++ (if ∀ e ∈ s.records, ¬ containsText text e.name then
                    [Item.str "No employee found with name containing: ", Item.str text,
                      Item.endl]
                  else [])))
    ∧ (option = 3 →
      searchEmployees s cin out
        = some (s, rest,
            out1 ++ [Item.str "Enter department to search: "]
              ++ searchResults
                (s.records.filter (fun e => decide (containsText text e.department)))
              ++ (if ∀ e ∈ s.records, ¬ containsText text e.department then
                    [Item.str "No employee found in department: ", Item.str text, Item.endl]
                  else []))) := by
  constructor
  · intro h2
    subst h2
    simp only [searchEmployees, hu, hNG, if_false, hread, searchEmployeesSwitch, getStringInput,
      searchNameLoop_eq, EmployeeManagementSystem.records]
    by_cases hnone : ∀ e ∈ s.employees.map Prod.snd, ¬ containsText text e.name
    · have hf : (s.employees.map Prod.snd).filter (fun e => decide (containsText text e.name))
          = [] := by
        rw [List.filter_eq_nil_iff]
        intro e he
        simpa using hnone e he
      rw [if_pos hnone, hf]
      simp [searchResults]
    · have hf : (s.employees.map Prod.snd).filter (fun e => decide (containsText text e.name))
          ≠ [] := by
        rw [Ne, List.filter_eq_nil_iff]
        intro hall
        exact hnone (fun e he => by simpa using hall e he)
      rw [if_neg hnone]
      simp [hf]
  · intro h3
    subst h3
    simp only [searchEmployees, hu, hNG, if_false, hread, searchEmployeesSwitch, getStringInput,
      searchDeptLoop_eq, EmployeeManagementSystem.records]
    by_cases hnone : ∀ e ∈ s.employees.map Prod.snd, ¬ containsText text e.department
    · have hf : (s.employees.map Prod.snd).filter
          (fun e => decide (containsText text e.department)) = [] := by
        rw [List.filter_eq_nil_iff]
        intro e he
        simpa using hnone e he
      rw [if_pos hnone, hf]
      simp [searchResults]
    · have hf : (s.employees.map Prod.snd).filter
          (fun e => decide (containsText text e.department)) ≠ [] := by
        rw [Ne, List.filter_eq_nil_iff]
        intro hall
        exact hnone (fun e he => by simpa using hall e he)
      rw [if_neg hnone]
      simp [hf]

theorem searchEmployees_by_substring_witness :
    (seededAs 2).current
        = some (ManagementEmployee "Mike Davis" 2001 "Operations" "Operations Manager" 85000)
    ∧ (ManagementEmployee "Mike Davis" 2001 "Operations" "Operations Manager" 85000).getUserType
        ≠ "General"
    ∧ getValidInteger "Enter search option (1-3): " ["2", "Smith", "3"]
        ([] ++ [Item.str "\n=== Search Employees ===", Item.endl,
          Item.str "1. Search by User ID", Item.endl,
          Item.str "2. Search by Name", Item.endl,
          Item.str "3. Search by Department", Item.endl])
        = some (2, ["Smith", "3"],
            [Item.str "\n=== Search Employees ===", Item.endl,
             Item.str "1. Search by User ID", Item.endl,
             Item.str "2. Search by Name", Item.endl,
             Item.str "3. Search by Department", Item.endl,
             Item.str "Enter search option (1-3): "])
    ∧ searchEmployees (seededAs 2) ["2", "Smith", "3"] []
        = some (seededAs 2, ["3"],
            [Item.str "\n=== Search Employees ===", Item.endl,
             Item.str "1. Search by User ID", Item.endl,
             Item.str "2. Search by Name", Item.endl,
             Item.str "3. Search by Department", Item.endl,
             Item.str "Enter search option (1-3): ",
             Item.str "Enter name to search: ",
             Item.str "\n--- Search Result ---", Item.endl]
            ++ (GeneralEmployee "John Smith" 3001 "IT" "Software Developer" 65000).displayInfo) :=
  ⟨by decide, by decide, by decide,
    (searchEmployees_by_substring (seededAs 2)
      (ManagementEmployee "Mike Davis" 2001 "Operations" "Operations Manager" 85000)
      ["2", "Smith", "3"] ["3"] []
      [Item.str "\n=== Search Employees ===", Item.endl,
       Item.str "1. Search by User ID", Item.endl,
       Item.str "2. Search by Name", Item.endl,
       Item.str "3. Search by Department", Item.endl,
       Item.str "Enter search option (1-3): "]
      "Smith" 2 (by decide) (by decide) (by decide)).1 rfl⟩

end EMS

/-! ## Login -/

namespace EMS

/-- C6. When the id entered at `login` is the id of no record, `login`
returns false and leaves the system as it was, the current user included (so
a user that was unset stays unset); and whenever `login` returns true, the
entered id is the id of a record, and the current user has been set to the
first record of the store with that id, the store itself unchanged. -/
theorem login_unknown_id_fails (s : EmployeeManagementSystem) (cin cin1 : Cin)
    (out out1 : Cout) (id : Int) (hwf : AddrsDistinct s)
    (hread : getValidInteger "Enter your User ID: " cin
      (out ++ [Item.str "\n=== Employee Management System Login ===", Item.endl])
        = some (id, cin1, out1)) :
    ((∀ r ∈ s.records, r.userId ≠ id) →
      login s cin out
        = some (false, s, cin1, out1 ++ [Item.str "Invalid User ID. Access denied.", Item.endl]))
    ∧ (∀ (s1 : EmployeeManagementSystem) (cin2 : Cin) (out2 : Cout),
        login s cin out = some (true, s1, cin2, out2) →
          ∃ (pre : List (Nat × Employee)) (a : Nat) (e : Employee) (post : List (Nat × Employee)),
            s.employees = pre ++ (a, e) :: post
            ∧ e.userId = id ∧ (∀ x ∈ pre, x.2.userId ≠ id)
            ∧ s1 = { employees := s.employees, currentUser := some a }
            ∧ s1.current = some e) := by
  constructor
  · intro hnone
    simp [login, hread, findById_none_of_records hnone]
  · intro s1 cin2 out2 h
    simp only [login, hread] at h
    cases hf : findById s.employees id with
    | none => simp [hf] at h
    | some emp =>
      obtain ⟨a, e⟩ := emp
      simp only [hf, Option.some.injEq, Prod.mk.injEq, true_and] at h
      obtain ⟨pre, post, h1, h2, h3⟩ := findById_eq_some _ _ _ hf
      refine ⟨pre, a, e, post, h1, h2, h3, h.1.symm, ?_⟩
      rw [← h.1]
      simp only [EmployeeManagementSystem.current]
      apply lookup_of_mem _ _ _ hwf
      rw [h1]
      simp

theorem login_unknown_id_fails_witness :
    AddrsDistinct EmployeeManagementSystem.init
    ∧ getValidInteger "Enter your User ID: " ["9999", "n"]
        ([] ++ [Item.str "\n=== Employee Management System Login ===", Item.endl])
        = some (9999, ["n"],
            [Item.str "\n=== Employee Management System Login ===", Item.endl,
             Item.str "Enter your User ID: "])
    ∧ (∀ r ∈ EmployeeManagementSystem.init.records, r.userId ≠ 9999)
    ∧ login EmployeeManagementSystem.init ["9999", "n"] []
        = some (false, EmployeeManagementSystem.init, ["n"],
            [Item.str "\n=== Employee Management System Login ===", Item.endl,
             Item.str "Enter your User ID: ",
             Item.str "Invalid User ID. Access denied.", Item.endl])
    ∧ EmployeeManagementSystem.init.currentUser = none :=
  ⟨by decide, by decide, by decide,
    (login_unknown_id_fails EmployeeManagementSystem.init ["9999", "n"] ["n"] []
      [Item.str "\n=== Employee Management System Login ===", Item.endl,
       Item.str "Enter your User ID: "] 9999 (by decide) (by decide)).1 (by decide),
    rfl⟩

end EMS

/-! ## Modifying and deleting -/

namespace EMS

theorem getStringInput_eq (prompt : String) (cin : Cin) (out : Cout) :
    getStringInput prompt cin out = (cin.headD "", cin.tail, out ++ [Item.str prompt]) := by
  cases cin <;> rfl

/-- C8. In an HR session over a store of distinct objects, once the id to
modify has been read: when no record has that id the system is unchanged; when
the first record with that id is `e`, between the slots `pre` and `post`, then
after the field choice has been read, choice 1, 2 or 3 replaces the name, the
department or the position of `e` by the next line of input, choice 4 replaces
the salary of `e` by the number `getValidDouble` delivers, and any other choice
changes nothing. In every case the id and the class (role) of `e`, all slots
of `pre` and `post`, their number and order, and the current user are as they
were. -/
theorem modifyEmployee_frame (s : EmployeeManagementSystem) (u : Employee) (cin cin1 : Cin)
    (out out1 : Cout) (id : Int)
    (hu : s.current = some u) (hHR : u.getUserType = "HR") (hwf : AddrsDistinct s)
    (hread : getValidInteger "Enter User ID of employee to modify: " cin
      (out ++ [Item.str "\n=== Modify Employee ===", Item.endl]) = some (id, cin1, out1)) :
    ((∀ r ∈ s.records, r.userId ≠ id) →
      modifyEmployee s cin out
        = some (s, cin1,
            out1 ++ [Item.str "Employee not found with User ID: ", Item.int id, Item.endl]))
    ∧ ∀ (pre : List (Nat × Employee)) (a : Nat) (e : Employee) (post : List (Nat × Employee))
        (choice : Int) (cin2 : Cin) (out2 : Cout),
        s.employees = pre ++ (a, e) :: post → e.userId = id → (∀ x ∈ pre, x.2.userId ≠ id) →
        getValidInteger "Enter choice (1-4): " cin1
          (out1 ++ [Item.str "\nCurrent employee information:", Item.endl]
            ++ e.displayInfo
            ++ [Item.str "\nWhat would you like to modify?", Item.endl,
              Item.str "1. Name", Item.endl,
              Item.str "2. Department", Item.endl,
              Item.str "3. Position", Item.endl,
              Item.str "4. Salary", Item.endl]) = some (choice, cin2, out2) →
        (choice = 1 →
          modifyEmployee s cin out
            = some ({ employees := pre ++ (a, { e with name := cin2.headD "" }) :: post,
                      currentUser := s.currentUser },
                cin2.tail,
                out2 ++ [Item.str "Enter new name: ", Item.str "Name updated successfully!",
                  Item.endl]))
        ∧ (choice = 2 →
          modifyEmployee s cin out
            = some ({ employees := pre ++ (a, { e with department := cin2.headD "" }) :: post,
                      currentUser := s.currentUser },
                cin2.tail,
                out2 ++ [Item.str "Enter new department: ",
                  Item.str "Department updated successfully!", Item.endl]))
        ∧ (choice = 3 →
          modifyEmployee s cin out
            = some ({ employees := pre ++ (a, { e with position := cin2.headD "" }) :: post,
                      currentUser := s.currentUser },
                cin2.tail,
                out2 ++ [Item.str "Enter new position: ",
                  Item.str "Position updated successfully!", Item.endl]))
        ∧ (choice = 4 →
          ∀ (newSalary : ℚ) (cin3 : Cin) (out3 : Cout),
            getValidDouble "Enter new salary: $" cin2 out2 = some (newSalary, cin3, out3) →
            modifyEmployee s cin out
              = some ({ employees := pre ++ (a, { e with salary := newSalary }) :: post,
                        currentUser := s.currentUser },
                  cin3, out3 ++ [Item.str "Salary updated successfully!", Item.endl]))
        ∧ ((choice < 1 ∨ 4 < choice) →
          modifyEmployee s cin out
            = some (s, cin2, out2 ++ [Item.str "Invalid choice.", Item.endl])) := by
  constructor
  · intro hnone
    simp [modifyEmployee, hu, hHR, hread, findById_none_of_records hnone]
  · intro pre a e post choice cin2 out2 hsplit hid hpre hread2
    have hfind : findById s.employees id = some (a, e) := by
      rw [hsplit]
      exact findById_append_cons pre post (a, e) id hpre hid
    have hnd : ((pre ++ (a, e) :: post).map Prod.fst).Nodup := by
      rw [← hsplit]
      exact hwf
    have hst : ∀ f : Employee → Employee,
        store s.employees a f = pre ++ (a, f e) :: post := by
      intro f
      rw [hsplit]
      exact store_append_cons pre post a e f hnd
    refine ⟨?_, ?_, ?_, ?_, ?_⟩
    · intro hc
      subst hc
      simp only [modifyEmployee, hu, hHR, hread, hfind, hread2, modifyEmployeeSwitch,
        getStringInput_eq, hst, Employee.setName]
      simp
    · intro hc
      subst hc
      simp only [modifyEmployee, hu, hHR, hread, hfind, hread2, modifyEmployeeSwitch,
        getStringInput_eq, hst, Employee.setDepartment]
      simp
    · intro hc
      subst hc
      simp only [modifyEmployee, hu, hHR, hread, hfind, hread2, modifyEmployeeSwitch,
        getStringInput_eq, hst, Employee.setPosition]
      simp
    · intro hc newSalary cin3 out3 hread3
      subst hc
      simp only [modifyEmployee, hu, hHR, hread, hfind, hread2, modifyEmployeeSwitch,
        hread3, hst, Employee.setSalary]
      simp
    · intro hc
      have h1 : choice ≠ 1 := by omega
      have h2 : choice ≠ 2 := by omega
      have h3 : choice ≠ 3 := by omega
      have h4 : choice ≠ 4 := by omega
      simp only [modifyEmployee, hu, hHR, hread, hfind, hread2, modifyEmployeeSwitch, h1, h2, h3,
        h4, if_false]
      simp

/-- C9. In an HR session, once the id to delete has been read and is not the
id of the logged-in record: when no record has that id the system is
unchanged; when the first record with that id is `e`, between the slots `pre`
and `post`, and the confirmation read is `y` or `Y`, the store becomes `pre`
followed by `post` (that one slot removed, the others as they were and in
their order); with any other confirmation the system is unchanged. The
current user is kept in every case. -/
theorem deleteEmployee_removes_first_match (s : EmployeeManagementSystem) (u : Employee)
    (cin cin1 : Cin) (out out1 : Cout) (id : Int)
    (hu : s.current = some u) (hHR : u.getUserType = "HR")
    (hread : getValidInteger "Enter User ID of employee to delete: " cin
      (out ++ [Item.str "\n=== Delete Employee ===", Item.endl]) = some (id, cin1, out1))
    (hne : id ≠ u.userId) :
    ((∀ r ∈ s.records, r.userId ≠ id) →
      deleteEmployee s cin out
        = some (s, cin1,
            out1 ++ [Item.str "Employee not found with User ID: ", Item.int id, Item.endl]))
    ∧ ∀ (pre : List (Nat × Employee)) (a : Nat) (e : Employee) (post : List (Nat × Employee))
        (confirm : Char) (cin2 : Cin),
        s.employees = pre ++ (a, e) :: post → e.userId = id → (∀ x ∈ pre, x.2.userId ≠ id) →
        extractChar cin1 = some (confirm, cin2) →
        ((confirm = 'y' ∨ confirm = 'Y') →
          deleteEmployee s cin out
            = some ({ employees := pre ++ post, currentUser := s.currentUser }, cin2,
                out1 ++ [Item.str "\nEmployee to be deleted:", Item.endl]
                  ++ e.displayInfo
                  ++ [Item.str "\nAre you sure you want to delete this employee? (y/n): ",
                    Item.str "Employee deleted successfully!", Item.endl]))
        ∧ ((confirm ≠ 'y' ∧ confirm ≠ 'Y') →
          deleteEmployee s cin out
            = some (s, cin2,
                out1 ++ [Item.str "\nEmployee to be deleted:", Item.endl]
                  ++ e.displayInfo
                  ++ [Item.str "\nAre you sure you want to delete this employee? (y/n): ",
                    Item.str "Deletion cancelled.", Item.endl])) := by
  constructor
  · intro hnone
    have hf : findIf s.employees id = none := by
      apply findIf_eq_none
      intro emp hemp
      exact hnone emp.2 (mem_records.mpr ⟨emp.1, hemp⟩)
    simp [deleteEmployee, hu, hHR, hread, hne, hf]
  · intro pre a e post confirm cin2 hsplit hid hpre hconf
    have hfind : findIf s.employees id = some pre.length := by
      rw [hsplit]
      exact findIf_append_cons pre post (a, e) id hpre hid
    have hget : s.employees.get? pre.length = some (a, e) := by
      rw [hsplit]
      exact get?_append_cons pre post (a, e)
    have herase : s.employees.eraseIdx pre.length = pre ++ post := by
      rw [hsplit]
      exact eraseIdx_append_cons pre post (a, e)
    constructor
    · intro hy
      simp only [deleteEmployee, hu, hHR, hread, hne, hfind, hget, hconf, herase]
      simp [hy]
    · intro hn
      simp only [deleteEmployee, hu, hHR, hread, hne, hfind, hget, hconf]
      simp [hn.1, hn.2]

theorem modifyEmployee_frame_witness :
    (seededAs 1).current = some sarah ∧ sarah.getUserType = "HR" ∧ AddrsDistinct (seededAs 1)
    ∧ (seededAs 1).employees = [(1, sarah), (2, mike)] ++ (3, john) :: [(4, emily), (5, david)]
    ∧ (modifyEmployee (seededAs 1) ["3001", "1", "Jon Smith", "6"] []).map
          (fun r => (r.1, r.2.1))
        = some ({ employees := [(1, sarah), (2, mike), (3, { john with name := "Jon Smith" }),
                    (4, emily), (5, david)],
                  currentUser := some 1 }, ["6"]) := by
  refine ⟨by decide, by decide, by decide, by decide, ?_⟩
  rw [((modifyEmployee_frame (seededAs 1) sarah ["3001", "1", "Jon Smith", "6"]
      ["1", "Jon Smith", "6"] [] _ 3001 (by decide) (by decide) (by decide)
      (getValidInteger_cons_some _ _ _ _ _ (by decide))).2
      [(1, sarah), (2, mike)] 3 john [(4, emily), (5, david)] 1 ["Jon Smith", "6"] _
      (by decide) (by decide) (by decide)
      (getValidInteger_cons_some _ _ _ _ _ (by decide))).1 rfl]
  rfl

theorem deleteEmployee_removes_first_match_witness :
    (seededAs 1).current = some sarah ∧ sarah.getUserType = "HR" ∧ (3002 : Int) ≠ sarah.userId
    ∧ (seededAs 1).employees = [(1, sarah), (2, mike), (3, john)] ++ (4, emily) :: [(5, david)]
    ∧ extractChar ["  Y", "6"] = some ('Y', ["6"])
    ∧ (deleteEmployee (seededAs 1) ["3002", "  Y", "6"] []).map (fun r => (r.1, r.2.1))
        = some ({ employees := [(1, sarah), (2, mike), (3, john), (5, david)],
                  currentUser := some 1 }, ["6"]) := by
  refine ⟨by decide, by decide, by decide, by decide, by decide, ?_⟩
  rw [((deleteEmployee_removes_first_match (seededAs 1) sarah ["3002", "  Y", "6"]
      ["  Y", "6"] [] _ 3002 (by decide) (by decide)
      (getValidInteger_cons_some _ _ _ _ _ (by decide)) (by decide)).2
      [(1, sarah), (2, mike), (3, john)] 4 emily [(5, david)] 'Y' ["6"]
      (by decide) (by decide) (by decide) (by decide)).1 (Or.inr rfl)]
  rfl

end EMS

/-! ## Invariants of the store -/

namespace EMS

theorem login_result (s : EmployeeManagementSystem) (cin : Cin) (out : Cout) (b : Bool)
    (s1 : EmployeeManagementSystem) (cin1 : Cin) (out1 : Cout)
    (h : login s cin out = some (b, s1, cin1, out1)) : s1.employees = s.employees := by
  unfold login at h
  split at h
  · cases h
  · split at h
    all_goals
      simp only [Option.some.injEq, Prod.mk.injEq] at h
      rw [← h.2.1]

theorem viewEmployees_result (s : EmployeeManagementSystem) (cin : Cin) (out : Cout)
    (s1 : EmployeeManagementSystem) (cin1 : Cin) (out1 : Cout)
    (h : viewEmployees s cin out = some (s1, cin1, out1)) : s1 = s := by
  cases hu : s.current with
  | none => simp [viewEmployees, hu] at h
  | some u =>
    obtain ⟨o, ho⟩ := viewEmployees_state s u cin out hu
    rw [ho] at h
    simp only [Option.some.injEq, Prod.mk.injEq] at h
    exact h.1.symm

theorem modifyEmployeeSwitch_userIds (employees : List (Nat × Employee)) (a : Nat)
    (choice : Int) (cin : Cin) (out : Cout) (employees3 : List (Nat × Employee)) (cin3 : Cin)
    (out3 : Cout)
    (h : modifyEmployeeSwitch employees a choice cin out = some (employees3, cin3, out3)) :
    employees3.map (fun emp => emp.2.userId) = employees.map (fun emp => emp.2.userId)
    ∧ employees3.map Prod.fst = employees.map Prod.fst := by
  have haddr : ∀ f : Employee → Employee,
      (store employees a f).map Prod.fst = employees.map Prod.fst := by
    intro f
    simp only [store, List.map_map]
    apply List.map_congr_left
    intro x _
    by_cases hx : x.1 = a <;> simp [hx]
  unfold modifyEmployeeSwitch at h
  split_ifs at h
  · simp only [Option.some.injEq, Prod.mk.injEq] at h
    rw [← h.1]
    exact ⟨store_userIds _ _ _ (fun e => rfl), haddr _⟩
  · simp only [Option.some.injEq, Prod.mk.injEq] at h
    rw [← h.1]
    exact ⟨store_userIds _ _ _ (fun e => rfl), haddr _⟩
  · simp only [Option.some.injEq, Prod.mk.injEq] at h
    rw [← h.1]
    exact ⟨store_userIds _ _ _ (fun e => rfl), haddr _⟩
  · split at h
    · cases h
    · simp only [Option.some.injEq, Prod.mk.injEq] at h
      rw [← h.1]
      exact ⟨store_userIds _ _ _ (fun e => rfl), haddr _⟩
  · simp only [Option.some.injEq, Prod.mk.injEq] at h
    rw [← h.1]
    exact ⟨rfl, rfl⟩

/-- A call of `modifyEmployee` that returns has kept the ids of the records,
in their order, the addresses of the slots and the current user. -/
theorem modifyEmployee_result (s : EmployeeManagementSystem) (cin : Cin) (out : Cout)
    (s1 : EmployeeManagementSystem) (cin1 : Cin) (out1 : Cout)
    (h : modifyEmployee s cin out = some (s1, cin1, out1)) :
    s1.employees.map (fun emp => emp.2.userId) = s.employees.map (fun emp => emp.2.userId)
    ∧ s1.employees.map Prod.fst = s.employees.map Prod.fst
    ∧ s1.currentUser = s.currentUser := by
  unfold modifyEmployee at h
  split at h
  · cases h
  · split_ifs at h
    · simp only [Option.some.injEq, Prod.mk.injEq] at h
      rw [← h.1]
      exact ⟨rfl, rfl, rfl⟩
    · split at h
      · cases h
      · split at h
        · simp only [Option.some.injEq, Prod.mk.injEq] at h
          rw [← h.1]
          exact ⟨rfl, rfl, rfl⟩
        · split at h
          · cases h
          · split at h
            · cases h
            · rename_i hsw
              simp only [Option.some.injEq, Prod.mk.injEq] at h
              rw [← h.1]
              have := modifyEmployeeSwitch_userIds _ _ _ _ _ _ _ _ hsw
              exact ⟨this.1, this.2, rfl⟩

/-- A call of `deleteEmployee` that returns has changed nothing or erased one
slot; the current user is kept. -/
theorem deleteEmployee_result (s : EmployeeManagementSystem) (cin : Cin) (out : Cout)
    (s1 : EmployeeManagementSystem) (cin1 : Cin) (out1 : Cout)
    (h : deleteEmployee s cin out = some (s1, cin1, out1)) :
    s1 = s ∨ ∃ it, s1 = { employees := s.employees.eraseIdx it, currentUser := s.currentUser } := by
  unfold deleteEmployee at h
  split at h
  · cases h
  · split_ifs at h
    · simp only [Option.some.injEq, Prod.mk.injEq] at h
      exact Or.inl h.1.symm
    · split at h
      · cases h
      · split_ifs at h
        · simp only [Option.some.injEq, Prod.mk.injEq] at h
          exact Or.inl h.1.symm
        · split at h
          · rename_i it _
            split at h
            · cases h
            · split at h
              · cases h
              · split_ifs at h
                · simp only [Option.some.injEq, Prod.mk.injEq] at h
                  exact Or.inr ⟨it, h.1.symm⟩
                · simp only [Option.some.injEq, Prod.mk.injEq] at h
                  exact Or.inl h.1.symm
          · simp only [Option.some.injEq, Prod.mk.injEq] at h
            exact Or.inl h.1.symm

theorem idsDistinct_iff (s : EmployeeManagementSystem) :
    IdsDistinct s ↔ (s.employees.map (fun emp => emp.2.userId)).Nodup := by
  simp [IdsDistinct, EmployeeManagementSystem.records, List.map_map, Function.comp_def]

theorem login_idsDistinct (s : EmployeeManagementSystem) (cin : Cin) (out : Cout) (b : Bool)
    (s1 : EmployeeManagementSystem) (cin1 : Cin) (out1 : Cout) (hs : IdsDistinct s)
    (h : login s cin out = some (b, s1, cin1, out1)) : IdsDistinct s1 := by
  rw [idsDistinct_iff] at hs ⊢
  rw [login_result s cin out b s1 cin1 out1 h]
  exact hs

theorem addEmployee_idsDistinct (s : EmployeeManagementSystem) (cin : Cin) (out : Cout)
    (s1 : EmployeeManagementSystem) (cin1 : Cin) (out1 : Cout) (hs : IdsDistinct s)
    (h : addEmployee s cin out = some (s1, cin1, out1)) : IdsDistinct s1 := by
  rcases addEmployee_result s cin out s1 cin1 out1 h with ⟨u, -, -, h1⟩ | ⟨e, -, hrec, hfresh, -⟩
  · rw [h1]
    exact hs
  · unfold IdsDistinct at hs ⊢
    rw [hrec, List.map_append, List.nodup_append]
    refine ⟨hs, by simp, ?_⟩
    intro x hx hx2
    simp only [List.map_cons, List.map_nil, List.mem_singleton] at hx2
    obtain ⟨r, hr, hrx⟩ := List.mem_map.mp hx
    exact hfresh r hr (hrx.trans hx2)

theorem modifyEmployee_idsDistinct (s : EmployeeManagementSystem) (cin : Cin) (out : Cout)
    (s1 : EmployeeManagementSystem) (cin1 : Cin) (out1 : Cout) (hs : IdsDistinct s)
    (h : modifyEmployee s cin out = some (s1, cin1, out1)) : IdsDistinct s1 := by
  rw [idsDistinct_iff] at hs ⊢
  rw [(modifyEmployee_result s cin out s1 cin1 out1 h).1]
  exact hs

theorem deleteEmployee_idsDistinct (s : EmployeeManagementSystem) (cin : Cin) (out : Cout)
    (s1 : EmployeeManagementSystem) (cin1 : Cin) (out1 : Cout) (hs : IdsDistinct s)
    (h : deleteEmployee s cin out = some (s1, cin1, out1)) : IdsDistinct s1 := by
  rcases deleteEmployee_result s cin out s1 cin1 out1 h with h1 | ⟨it, h1⟩
  · rw [h1]
    exact hs
  · rw [idsDistinct_iff] at hs ⊢
    rw [h1]
    exact hs.sublist ((List.eraseIdx_sublist _ _).map _)

theorem perform_reachable (a : Action) (s : EmployeeManagementSystem) (cin : Cin) (out : Cout)
    (s1 : EmployeeManagementSystem) (cin1 : Cin) (out1 : Cout) (hs : Reachable s)
    (h : perform a s cin out = some (s1, cin1, out1)) : Reachable s1 := by
  cases a <;> simp only [perform] at h
  · exact Reachable.addEmployee hs h
  · exact Reachable.viewEmployees hs h
  · exact Reachable.searchEmployees hs h
  · exact Reachable.modifyEmployee hs h
  · exact Reachable.deleteEmployee hs h
  · simp only [Option.some.injEq, Prod.mk.injEq] at h
    rw [← h.1]
    exact hs
  · simp only [Option.some.injEq, Prod.mk.injEq] at h
    rw [← h.1]
    exact hs

/-- The main loop of `run` only leads to reachable systems. -/
theorem mainLoop_reachable :
    ∀ (fuel : Nat) (s : EmployeeManagementSystem) (cin : Cin) (out : Cout)
      (s1 : EmployeeManagementSystem) (cin1 : Cin) (out1 : Cout),
      Reachable s → mainLoop fuel s cin out = some (s1, cin1, out1) → Reachable s1
  | 0, _, _, _, _, _, _, _, h => by simp [mainLoop] at h
  | fuel + 1, s, cin, out, s1, cin1, out1, hs, h => by
    unfold mainLoop at h
    split at h
    · cases h
    · split at h
      · cases h
      · split_ifs at h
        · simp only [Option.some.injEq, Prod.mk.injEq] at h
          rw [← h.1]
          exact hs
        · split at h
          · cases h
          · rename_i hperf
            exact mainLoop_reachable fuel _ _ _ _ _ _
              (perform_reachable _ _ _ _ _ _ _ hs hperf) h

/-- The login loop of `run` only leads to reachable systems. -/
theorem loginLoop_reachable :
    ∀ (fuel : Nat) (s : EmployeeManagementSystem) (cin : Cin) (out : Cout) (b : Bool)
      (s1 : EmployeeManagementSystem) (cin1 : Cin) (out1 : Cout),
      Reachable s → loginLoop fuel s cin out = some (b, s1, cin1, out1) → Reachable s1
  | 0, _, _, _, _, _, _, _, _, h => by simp [loginLoop] at h
  | fuel + 1, s, cin, out, b, s1, cin1, out1, hs, h => by
    unfold loginLoop at h
    split at h
    · cases h
    · rename_i hlog
      simp only [Option.some.injEq, Prod.mk.injEq] at h
      rw [← h.2.1]
      exact Reachable.login hs hlog
    · rename_i hlog
      have hr := Reachable.login hs hlog
      split at h
      · cases h
      · split_ifs at h
        · simp only [Option.some.injEq, Prod.mk.injEq] at h
          rw [← h.2.1]
          exact hr
        · exact loginLoop_reachable fuel _ _ _ _ _ _ _ hr h

/-- Every system the program ends with is reachable. -/
theorem main_reachable (cin : Cin) (s1 : EmployeeManagementSystem) (cin1 : Cin) (out1 : Cout)
    (h : main cin = some (s1, cin1, out1)) : Reachable s1 := by
  unfold main run at h
  split at h
  · cases h
  · rename_i hlog
    simp only [Option.some.injEq, Prod.mk.injEq] at h
    rw [← h.1]
    exact loginLoop_reachable _ _ _ _ _ _ _ _ Reachable.init hlog
  · rename_i hlog
    exact mainLoop_reachable _ _ _ _ _ _ _
      (loginLoop_reachable _ _ _ _ _ _ _ _ Reachable.init hlog) h

theorem reachable_idsDistinct (s : EmployeeManagementSystem) (h : Reachable s) :
    IdsDistinct s := by
  induction h with
  | init => decide
  | login _ h ih => exact login_idsDistinct _ _ _ _ _ _ _ ih h
  | addEmployee _ h ih => exact addEmployee_idsDistinct _ _ _ _ _ _ ih h
  | viewEmployees _ h ih => rw [viewEmployees_result _ _ _ _ _ _ h]; exact ih
  | searchEmployees _ h ih => rw [searchEmployees_state _ _ _ _ _ _ h]; exact ih
  | modifyEmployee _ h ih => exact modifyEmployee_idsDistinct _ _ _ _ _ _ ih h
  | deleteEmployee _ h ih => exact deleteEmployee_idsDistinct _ _ _ _ _ _ ih h

/-- C7. The ids of the records are pairwise distinct in the constructed
system (the five seeded records); each of `login`, `addEmployee`,
`viewEmployees`, `searchEmployees`, `modifyEmployee` and `deleteEmployee`, on
any input on which it returns, takes a system with pairwise distinct ids to
one with pairwise distinct ids; hence the ids are pairwise distinct in every
system reachable from the constructed one by these operations, and in every
system the program ends with. -/
theorem ids_distinct_invariant :
    IdsDistinct EmployeeManagementSystem.init
    ∧ (∀ (s : EmployeeManagementSystem) (cin : Cin) (out : Cout) (s1 : EmployeeManagementSystem)
        (cin1 : Cin) (out1 : Cout), IdsDistinct s →
        ((∃ b, login s cin out = some (b, s1, cin1, out1))
          ∨ addEmployee s cin out = some (s1, cin1, out1)
          ∨ viewEmployees s cin out = some (s1, cin1, out1)
          ∨ searchEmployees s cin out = some (s1, cin1, out1)
          ∨ modifyEmployee s cin out = some (s1, cin1, out1)
          ∨ deleteEmployee s cin out = some (s1, cin1, out1)) →
        IdsDistinct s1)
    ∧ (∀ s : EmployeeManagementSystem, Reachable s → IdsDistinct s)
    ∧ (∀ (cin : Cin) (s1 : EmployeeManagementSystem) (cin1 : Cin) (out1 : Cout),
        main cin = some (s1, cin1, out1) → IdsDistinct s1) := by
  refine ⟨by decide, ?_, reachable_idsDistinct, ?_⟩
  · intro s cin out s1 cin1 out1 hs h
    rcases h with ⟨b, h⟩ | h | h | h | h | h
    · exact login_idsDistinct _ _ _ _ _ _ _ hs h
    · exact addEmployee_idsDistinct _ _ _ _ _ _ hs h
    · rw [viewEmployees_result _ _ _ _ _ _ h]; exact hs
    · rw [searchEmployees_state _ _ _ _ _ _ h]; exact hs
    · exact modifyEmployee_idsDistinct _ _ _ _ _ _ hs h
    · exact deleteEmployee_idsDistinct _ _ _ _ _ _ hs h
  · intro cin s1 cin1 out1 h
    exact reachable_idsDistinct s1 (main_reachable cin s1 cin1 out1 h)

theorem ids_distinct_invariant_witness :
    IdsDistinct (seededAs 1)
    ∧ (deleteEmployee (seededAs 1) ["3002", "y"] []).map Prod.fst
        = some { employees := [(1, sarah), (2, mike), (3, john), (5, david)],
                 currentUser := some 1 }
    ∧ IdsDistinct { employees := [(1, sarah), (2, mike), (3, john), (5, david)],
                    currentUser := some 1 } := by
  have h : ∃ out1, deleteEmployee (seededAs 1) ["3002", "y"] []
      = some ({ employees := [(1, sarah), (2, mike), (3, john), (5, david)],
                currentUser := some 1 }, [], out1) := ⟨_, rfl⟩
  obtain ⟨out1, h⟩ := h
  exact ⟨by decide, by rw [h]; rfl,
    ids_distinct_invariant.2.1 (seededAs 1) ["3002", "y"] [] _ [] out1 (by decide)
      (Or.inr (Or.inr (Or.inr (Or.inr (Or.inr h)))))⟩

end EMS

/-! ## Numeric input -/

namespace EMS

theorem getValidDoubleLoop_nonneg (prompt : String) :
    ∀ (cin : Cin) (out : Cout) (v : ℚ) (cin1 : Cin) (out1 : Cout),
      getValidDoubleLoop prompt cin out = some (v, cin1, out1) → 0 ≤ v
  | [], _, _, _, _, h => by simp [getValidDoubleLoop] at h
  | l :: rest, out, v, cin1, out1, h => by
    unfold getValidDoubleLoop at h
    split at h
    · exact getValidDoubleLoop_nonneg prompt rest _ _ _ _ h
    · split at h
      · split_ifs at h with hv
        · simp only [Option.some.injEq, Prod.mk.injEq] at h
          rw [← h.1]
          exact hv
        · exact getValidDoubleLoop_nonneg prompt rest _ _ _ _ h
      · exact getValidDoubleLoop_nonneg prompt rest _ _ _ _ h

/-- C10, as stated, fails. The function `getValidInteger` returns a negative
number entered at once, with no message and no new prompt; and
`getValidDouble` does the same with an entry that has a minus sign but is too
small for a double, which converts to zero. -/
theorem getValidInteger_returns_negative :
    getValidInteger "Enter unique User ID: " ["-5", "7"] []
      = some (-5, ["7"], [Item.str "Enter unique User ID: "])
    ∧ (-5 : Int) < 0
    ∧ getValidDouble "Enter salary: $" ["-1e-400", "7"] []
      = some (0, ["7"], [Item.str "Enter salary: $"]) :=
  ⟨by decide, by decide, by decide!⟩

/-- C10, amended. The function `getValidDouble` never returns a value below
zero: a line whose number, converted to a double, is negative is answered with
the error message and a new prompt, exactly as a line from which no double can
be extracted is, and a line whose number converts to a double that is not
negative is returned. The function `getValidInteger` returns the integer a
line holds, whatever its sign, and answers with its error message and a new
prompt only a line that holds no integer. -/
theorem numeric_input_validation :
    (∀ (prompt : String) (cin : Cin) (out : Cout) (v : ℚ) (cin1 : Cin) (out1 : Cout),
      getValidDouble prompt cin out = some (v, cin1, out1) → 0 ≤ v)
    ∧ (∀ (prompt l : String) (rest : Cin) (out : Cout) (v : ℚ),
        parseDouble l = some v → v < 0 →
        getValidDouble prompt (l :: rest) out
          = getValidDouble prompt rest
              (out ++ [Item.str prompt,
                Item.str "Invalid input. Please enter a positive number.", Item.endl]))
    ∧ (∀ (prompt l : String) (rest : Cin) (out : Cout),
        isBlank l = false → parseDouble l = none →
        getValidDouble prompt (l :: rest) out
          = getValidDouble prompt rest
              (out ++ [Item.str prompt,
                Item.str "Invalid input. Please enter a positive number.", Item.endl]))
    ∧ (∀ (prompt l : String) (rest : Cin) (out : Cout) (v : ℚ),
        parseDouble l = some v → 0 ≤ v →
        getValidDouble prompt (l :: rest) out = some (v, rest, out ++ [Item.str prompt]))
    ∧ (∀ (prompt l : String) (rest : Cin) (out : Cout) (v : Int),
        parseInt l = some v →
        getValidInteger prompt (l :: rest) out = some (v, rest, out ++ [Item.str prompt]))
    ∧ (∀ (prompt l : String) (rest : Cin) (out : Cout),
        isBlank l = false → parseInt l = none →
        getValidInteger prompt (l :: rest) out
          = getValidInteger prompt rest
              (out ++ [Item.str prompt, Item.str "Invalid input. Please enter a number.",
                Item.endl])) := by
  refine ⟨?_, ?_, ?_, ?_, ?_, ?_⟩
  · intro prompt cin out v cin1 out1 h
    exact getValidDoubleLoop_nonneg prompt cin _ v cin1 out1 h
  · intro prompt l rest out v hp hv
    have hv2 : ¬ v ≥ 0 := not_le.mpr hv
    simp [getValidDouble, getValidDoubleLoop, isBlank_of_parseDouble hp, hp, hv2,
      List.append_assoc]
  · intro prompt l rest out hb hp
    simp [getValidDouble, getValidDoubleLoop, hb, hp, List.append_assoc]
  · intro prompt l rest out v hp hv
    exact getValidDouble_cons_some prompt l rest out v hp hv
  · intro prompt l rest out v hp
    exact getValidInteger_cons_some prompt l rest out v hp
  · intro prompt l rest out hb hp
    simp [getValidInteger, getValidIntegerLoop, hb, hp, List.append_assoc]

theorem numeric_input_validation_witness :
    parseDouble "-3" = some (-3) ∧ (-3 : ℚ) < 0
    ∧ getValidDouble "Enter salary: $" ["-3", "2.5"] []
        = getValidDouble "Enter salary: $" ["2.5"]
            ([] ++ [Item.str "Enter salary: $",
              Item.str "Invalid input. Please enter a positive number.", Item.endl])
    ∧ parseDouble "1.7976931348623158e308" = some (mkRat ((2 ^ 53 - 1) * 2 ^ 971) 1)
    ∧ (0 : ℚ) ≤ mkRat ((2 ^ 53 - 1) * 2 ^ 971) 1
    ∧ getValidDouble "Enter salary: $" ["1.7976931348623158e308", "2.5"] []
        = some (mkRat ((2 ^ 53 - 1) * 2 ^ 971) 1, ["2.5"], [] ++ [Item.str "Enter salary: $"])
    ∧ parseInt "-3" = some (-3)
    ∧ getValidInteger "Enter your choice (1-6): " ["-3", "2"] []
        = some (-3, ["2"], [] ++ [Item.str "Enter your choice (1-6): "]) := by
  have hp : parseDouble "-3" = some (-3) := by
    decide
  have hmax : parseDouble "1.7976931348623158e308"
      = some (mkRat ((2 ^ 53 - 1) * 2 ^ 971) 1) := by
    decide!
  have hpos : (0 : ℚ) ≤ mkRat ((2 ^ 53 - 1) * 2 ^ 971) 1 := by
    decide!
  exact ⟨hp, by norm_num,
    numeric_input_validation.2.1 "Enter salary: $" "-3" ["2.5"] [] (-3) hp (by norm_num),
    hmax, hpos,
    numeric_input_validation.2.2.2.1 "Enter salary: $" "1.7976931348623158e308" ["2.5"] [] _
      hmax hpos,
    by decide,
    numeric_input_validation.2.2.2.2.1 "Enter your choice (1-6): " "-3" ["2"] [] (-3)
      (by decide)⟩

end EMS

/-! ## Distinct objects -/

namespace EMS

theorem le_foldr_max (l : List Nat) (a : Nat) (h : a ∈ l) : a ≤ l.foldr max 0 := by
  induction l with
  | nil => simp at h
  | cons x rest ih =>
    simp only [List.foldr_cons]
    rcases List.mem_cons.mp h with rfl | h
    · exact Nat.le_max_left _ _
    · exact Nat.le_trans (ih h) (Nat.le_max_right _ _)

/-- The address `new` delivers is the address of no slot. -/
theorem newAddr_not_mem (employees : List (Nat × Employee)) :
    newAddr employees ∉ employees.map Prod.fst := by
  intro h
  have := le_foldr_max _ _ h
  unfold newAddr at this
  omega

theorem login_addrsDistinct (s : EmployeeManagementSystem) (cin : Cin) (out : Cout) (b : Bool)
    (s1 : EmployeeManagementSystem) (cin1 : Cin) (out1 : Cout) (hs : AddrsDistinct s)
    (h : login s cin out = some (b, s1, cin1, out1)) : AddrsDistinct s1 := by
  unfold AddrsDistinct at hs ⊢
  rw [login_result s cin out b s1 cin1 out1 h]
  exact hs

theorem addEmployee_addrsDistinct (s : EmployeeManagementSystem) (cin : Cin) (out : Cout)
    (s1 : EmployeeManagementSystem) (cin1 : Cin) (out1 : Cout) (hs : AddrsDistinct s)
    (h : addEmployee s cin out = some (s1, cin1, out1)) : AddrsDistinct s1 := by
  rcases addEmployee_result s cin out s1 cin1 out1 h with ⟨u, -, -, h1⟩ | ⟨e, hemp, -, -, -⟩
  · rw [h1]
    exact hs
  · unfold AddrsDistinct at hs ⊢
    rw [hemp, List.map_append, List.nodup_append]
    refine ⟨hs, by simp, ?_⟩
    intro x hx hx2
    simp only [List.map_cons, List.map_nil, List.mem_singleton] at hx2
    rw [hx2] at hx
    exact newAddr_not_mem _ hx

theorem modifyEmployee_addrsDistinct (s : EmployeeManagementSystem) (cin : Cin) (out : Cout)
    (s1 : EmployeeManagementSystem) (cin1 : Cin) (out1 : Cout) (hs : AddrsDistinct s)
    (h : modifyEmployee s cin out = some (s1, cin1, out1)) : AddrsDistinct s1 := by
  unfold AddrsDistinct at hs ⊢
  rw [(modifyEmployee_result s cin out s1 cin1 out1 h).2.1]
  exact hs

theorem deleteEmployee_addrsDistinct (s : EmployeeManagementSystem) (cin : Cin) (out : Cout)
    (s1 : EmployeeManagementSystem) (cin1 : Cin) (out1 : Cout) (hs : AddrsDistinct s)
    (h : deleteEmployee s cin out = some (s1, cin1, out1)) : AddrsDistinct s1 := by
  rcases deleteEmployee_result s cin out s1 cin1 out1 h with h1 | ⟨it, h1⟩
  · rw [h1]
    exact hs
  · unfold AddrsDistinct at hs ⊢
    rw [h1]
    exact hs.sublist ((List.eraseIdx_sublist _ _).map _)

/-- In every reachable system the slots of the vector hold distinct
addresses. -/
theorem reachable_addrsDistinct (s : EmployeeManagementSystem) (h : Reachable s) :
    AddrsDistinct s := by
  induction h with
  | init => decide
  | login _ h ih => exact login_addrsDistinct _ _ _ _ _ _ _ ih h
  | addEmployee _ h ih => exact addEmployee_addrsDistinct _ _ _ _ _ _ ih h
  | viewEmployees _ h ih => rw [viewEmployees_result _ _ _ _ _ _ h]; exact ih
  | searchEmployees _ h ih => rw [searchEmployees_state _ _ _ _ _ _ h]; exact ih
  | modifyEmployee _ h ih => exact modifyEmployee_addrsDistinct _ _ _ _ _ _ ih h
  | deleteEmployee _ h ih => exact deleteEmployee_addrsDistinct _ _ _ _ _ _ ih h

end EMS

/-! ## Fuel

The loops that take a bound on their rounds read at least one line in every
round, so a bound of the number of lines of input is never what stops them:
with it a loop ends in `none` only when the program itself has no final state.
-/

namespace EMS

theorem getValidDoubleLoop_length (prompt : String) :
    ∀ (cin : Cin) (out : Cout) (v : ℚ) (cin1 : Cin) (out1 : Cout),
      getValidDoubleLoop prompt cin out = some (v, cin1, out1) → cin1.length < cin.length
  | [], _, _, _, _, h => by simp [getValidDoubleLoop] at h
  | l :: rest, out, v, cin1, out1, h => by
    unfold getValidDoubleLoop at h
    split at h
    · have := getValidDoubleLoop_length prompt rest _ _ _ _ h
      simp; omega
    · split at h
      · split_ifs at h
        · simp only [Option.some.injEq, Prod.mk.injEq] at h
          rw [← h.2.1]; simp
        · have := getValidDoubleLoop_length prompt rest _ _ _ _ h
          simp; omega
      · have := getValidDoubleLoop_length prompt rest _ _ _ _ h
        simp; omega

theorem getValidDouble_length {prompt : String} {cin : Cin} {out : Cout} {v : ℚ} {cin1 : Cin}
    {out1 : Cout} (h : getValidDouble prompt cin out = some (v, cin1, out1)) :
    cin1.length < cin.length :=
  getValidDoubleLoop_length prompt cin _ v cin1 out1 h

theorem getStringInput_length (prompt : String) (cin : Cin) (out : Cout) :
    (getStringInput prompt cin out).2.1.length ≤ cin.length := by
  cases cin <;> simp [getStringInput]

theorem extractChar_length :
    ∀ (cin : Cin) (c : Char) (cin1 : Cin), extractChar cin = some (c, cin1) →
      cin1.length < cin.length
  | [], _, _, h => by simp [extractChar] at h
  | l :: rest, c, cin1, h => by
    unfold extractChar at h
    split at h
    · simp only [Option.some.injEq, Prod.mk.injEq] at h
      rw [← h.2]; simp
    · have := extractChar_length rest c cin1 h
      simp; omega

theorem cinGet_length (cin : Cin) : (cinGet cin).length ≤ cin.length := by
  cases cin with
  | nil => simp [cinGet]
  | cons l rest =>
    simp only [cinGet]
    cases l.data <;> simp

theorem addEmployeeIdLoop_length (employees : List (Nat × Employee)) :
    ∀ (fuel : Nat) (cin : Cin) (out : Cout) (id : Int) (cin1 : Cin) (out1 : Cout),
      addEmployeeIdLoop employees fuel cin out = some (id, cin1, out1) →
        cin1.length < cin.length
  | 0, _, _, _, _, _, h => by simp [addEmployeeIdLoop] at h
  | fuel + 1, cin, out, id, cin1, out1, h => by
    unfold addEmployeeIdLoop at h
    split at h
    · cases h
    · rename_i hread
      have h1 := getValidInteger_length hread
      split at h
      · have := addEmployeeIdLoop_length employees fuel _ _ _ _ _ h
        omega
      · simp only [Option.some.injEq, Prod.mk.injEq] at h
        rw [← h.2.1]
        exact h1

/-- More rounds than lines of input change nothing in the loop of
`addEmployee`. -/
theorem addEmployeeIdLoop_fuel (employees : List (Nat × Employee)) :
    ∀ (fuel : Nat) (cin : Cin) (out : Cout), cin.length ≤ fuel →
      addEmployeeIdLoop employees (fuel + 1) cin out = addEmployeeIdLoop employees fuel cin out
  | 0, cin, out, h => by
    have hc : cin = [] := List.length_eq_zero.mp (Nat.le_zero.mp h)
    subst hc
    simp [addEmployeeIdLoop, getValidInteger, getValidIntegerLoop]
  | fuel + 1, cin, out, h => by
    rw [addEmployeeIdLoop, addEmployeeIdLoop]
    cases hread : getValidInteger "Enter unique User ID: " cin out with
    | none => rfl
    | some r =>
      obtain ⟨id, cin1, out1⟩ := r
      have h1 := getValidInteger_length hread
      simp only
      split_ifs
      · exact addEmployeeIdLoop_fuel employees fuel cin1 _ (by omega)
      · rfl

theorem addEmployee_length (s : EmployeeManagementSystem) (cin : Cin) (out : Cout)
    (s1 : EmployeeManagementSystem) (cin1 : Cin) (out1 : Cout)
    (h : addEmployee s cin out = some (s1, cin1, out1)) : cin1.length ≤ cin.length := by
  cases hu : s.current with
  | none => simp [addEmployee, hu] at h
  | some u =>
    by_cases hHR : u.getUserType = "HR"
    · simp only [addEmployee, hu, hHR, ne_eq, not_true_eq_false, if_false,
        getStringInput_eq] at h
      split at h
      · cases h
      · rename_i userId2 cin2 out2 hloop
        have h1 := addEmployeeIdLoop_length _ _ _ _ _ _ _ hloop
        split at h
        · cases h
        · rename_i salary cin5 out5 hdbl
          have h2 := getValidDouble_length hdbl
          split at h
          · cases h
          · rename_i choice cin6 out6 hch
            have h5 := getValidInteger_length hch
            simp only [Option.some.injEq, Prod.mk.injEq] at h
            rw [← h.2.1]
            simp only [List.length_tail] at h1 h2
            omega
    · simp only [addEmployee, hu, hHR, ne_eq, not_false_eq_true, if_true, Option.some.injEq,
        Prod.mk.injEq] at h
      rw [← h.2.1]

theorem searchEmployees_length (s : EmployeeManagementSystem) (cin : Cin) (out : Cout)
    (s1 : EmployeeManagementSystem) (cin1 : Cin) (out1 : Cout)
    (h : searchEmployees s cin out = some (s1, cin1, out1)) : cin1.length ≤ cin.length := by
  unfold searchEmployees at h
  split at h
  · cases h
  · split_ifs at h
    · simp only [Option.some.injEq, Prod.mk.injEq] at h
      rw [← h.2.1]
    · split at h
      · cases h
      · rename_i choice cin2 out2 hread
        have h1 := getValidInteger_length hread
        split at h
        · cases h
        · rename_i cin3 out3 hsw
          simp only [Option.some.injEq, Prod.mk.injEq] at h
          rw [← h.2.1]
          have h2 : cin3.length ≤ cin2.length := by
            by_cases c1 : choice = 1
            · simp only [searchEmployeesSwitch, c1, if_true] at hsw
              split at hsw
              · cases hsw
              · rename_i hread2
                have := getValidInteger_length hread2
                split at hsw <;>
                  (simp only [Option.some.injEq, Prod.mk.injEq] at hsw; rw [← hsw.1]; omega)
            · by_cases c2 : choice = 2
              · unfold searchEmployeesSwitch at hsw
                rw [if_neg c1, if_pos c2] at hsw
                simp only [getStringInput_eq] at hsw
                split_ifs at hsw <;>
                  (simp only [Option.some.injEq, Prod.mk.injEq] at hsw; rw [← hsw.1]; simp)
              · by_cases c3 : choice = 3
                · unfold searchEmployeesSwitch at hsw
                  rw [if_neg c1, if_neg c2, if_pos c3] at hsw
                  simp only [getStringInput_eq] at hsw
                  split_ifs at hsw <;>
                    (simp only [Option.some.injEq, Prod.mk.injEq] at hsw; rw [← hsw.1]; simp)
                · simp only [searchEmployeesSwitch, c1, c2, c3, if_false, Option.some.injEq,
                    Prod.mk.injEq] at hsw
                  rw [← hsw.1]
          omega

theorem modifyEmployee_length (s : EmployeeManagementSystem) (cin : Cin) (out : Cout)
    (s1 : EmployeeManagementSystem) (cin1 : Cin) (out1 : Cout)
    (h : modifyEmployee s cin out = some (s1, cin1, out1)) : cin1.length ≤ cin.length := by
  unfold modifyEmployee at h
  split at h
  · cases h
  · split_ifs at h
    · simp only [Option.some.injEq, Prod.mk.injEq] at h
      rw [← h.2.1]
    · split at h
      · cases h
      · rename_i userId cin2 out2 hread
        have h1 := getValidInteger_length hread
        split at h
        · simp only [Option.some.injEq, Prod.mk.injEq] at h
          rw [← h.2.1]
          omega
        · split at h
          · cases h
          · rename_i choice cin3 out3 hread2
            have h2 := getValidInteger_length hread2
            split at h
            · cases h
            · rename_i employees4 cin4 out4 hsw
              simp only [Option.some.injEq, Prod.mk.injEq] at h
              rw [← h.2.1]
              have h3 : cin4.length ≤ cin3.length := by
                unfold modifyEmployeeSwitch at hsw
                split_ifs at hsw
                · simp only [Option.some.injEq, Prod.mk.injEq] at hsw
                  rw [← hsw.2.1]
                  exact getStringInput_length _ _ _
                · simp only [Option.some.injEq, Prod.mk.injEq] at hsw
                  rw [← hsw.2.1]
                  exact getStringInput_length _ _ _
                · simp only [Option.some.injEq, Prod.mk.injEq] at hsw
                  rw [← hsw.2.1]
                  exact getStringInput_length _ _ _
                · split at hsw
                  · cases hsw
                  · rename_i hdbl
                    have := getValidDouble_length hdbl
                    simp only [Option.some.injEq, Prod.mk.injEq] at hsw
                    rw [← hsw.2.1]
                    omega
                · simp only [Option.some.injEq, Prod.mk.injEq] at hsw
                  rw [← hsw.2.1]
              omega

theorem deleteEmployee_length (s : EmployeeManagementSystem) (cin : Cin) (out : Cout)
    (s1 : EmployeeManagementSystem) (cin1 : Cin) (out1 : Cout)
    (h : deleteEmployee s cin out = some (s1, cin1, out1)) : cin1.length ≤ cin.length := by
  unfold deleteEmployee at h
  split at h
  · cases h
  · split_ifs at h
    · simp only [Option.some.injEq, Prod.mk.injEq] at h
      rw [← h.2.1]
    · split at h
      · cases h
      · rename_i userId cin2 out2 hread
        have h1 := getValidInteger_length hread
        split_ifs at h
        · simp only [Option.some.injEq, Prod.mk.injEq] at h
          rw [← h.2.1]
          omega
        · split at h
          · split at h
            · cases h
            · split at h
              · cases h
              · rename_i confirm cin3 hconf
                have h2 := extractChar_length _ _ _ hconf
                split_ifs at h <;>
                  (simp only [Option.some.injEq, Prod.mk.injEq] at h; rw [← h.2.1]; omega)
          · simp only [Option.some.injEq, Prod.mk.injEq] at h
            rw [← h.2.1]
            omega

theorem perform_length (a : Action) (s : EmployeeManagementSystem) (cin : Cin) (out : Cout)
    (s1 : EmployeeManagementSystem) (cin1 : Cin) (out1 : Cout)
    (h : perform a s cin out = some (s1, cin1, out1)) : cin1.length ≤ cin.length := by
  cases a <;> simp only [perform] at h
  · exact addEmployee_length _ _ _ _ _ _ h
  · cases hu : s.current with
    | none => simp [viewEmployees, hu] at h
    | some u =>
      obtain ⟨o, ho⟩ := viewEmployees_state s u cin out hu
      rw [ho] at h
      simp only [Option.some.injEq, Prod.mk.injEq] at h
      rw [← h.2.1]
  · exact searchEmployees_length _ _ _ _ _ _ h
  · exact modifyEmployee_length _ _ _ _ _ _ h
  · exact deleteEmployee_length _ _ _ _ _ _ h
  · simp only [Option.some.injEq, Prod.mk.injEq] at h
    rw [← h.2.1]
  · simp only [Option.some.injEq, Prod.mk.injEq] at h
    rw [← h.2.1]

/-- More rounds than lines of input change nothing in the main loop. -/
theorem mainLoop_fuel :
    ∀ (fuel : Nat) (s : EmployeeManagementSystem) (cin : Cin) (out : Cout), cin.length ≤ fuel →
      mainLoop (fuel + 1) s cin out = mainLoop fuel s cin out
  | 0, s, cin, out, h => by
    have hc : cin = [] := List.length_eq_zero.mp (Nat.le_zero.mp h)
    subst hc
    simp only [mainLoop, getValidInteger, getValidIntegerLoop]
    cases s.current <;> rfl
  | fuel + 1, s, cin, out, h => by
    rw [mainLoop, mainLoop]
    cases hu : s.current with
    | none => rfl
    | some u =>
      simp only
      cases hread : getValidInteger (menuPrompt u.getUserType) cin (out ++ displayMenu u) with
      | none => rfl
      | some r =>
        obtain ⟨choice, cin1, out1⟩ := r
        have h1 := getValidInteger_length hread
        simp only
        split_ifs
        · rfl
        · cases hperf : perform (menuAction u.getUserType choice) s cin1 out1 with
          | none => rfl
          | some r2 =>
            obtain ⟨s2, cin2, out2⟩ := r2
            have h2 := perform_length _ _ _ _ _ _ _ hperf
            have h3 := cinGet_length cin2
            simp only
            exact mainLoop_fuel fuel s2 (cinGet cin2) _ (by omega)

/-- More rounds than lines of input change nothing in the login loop. -/
theorem loginLoop_fuel :
    ∀ (fuel : Nat) (s : EmployeeManagementSystem) (cin : Cin) (out : Cout), cin.length ≤ fuel →
      loginLoop (fuel + 1) s cin out = loginLoop fuel s cin out
  | 0, s, cin, out, h => by
    have hc : cin = [] := List.length_eq_zero.mp (Nat.le_zero.mp h)
    subst hc
    simp [loginLoop, login, getValidInteger, getValidIntegerLoop]
  | fuel + 1, s, cin, out, h => by
    rw [loginLoop, loginLoop]
    cases hlog : login s cin out with
    | none => rfl
    | some r =>
      obtain ⟨b, s1, cin1, out1⟩ := r
      have h1 : cin1.length < cin.length := by
        unfold login at hlog
        split at hlog
        · cases hlog
        · rename_i hread
          have := getValidInteger_length hread
          split at hlog <;>
            (simp only [Option.some.injEq, Prod.mk.injEq] at hlog; rw [← hlog.2.2.1]; exact this)
      cases b with
      | true => rfl
      | false =>
        simp only
        cases hc : extractChar cin1 with
        | none => rfl
        | some r2 =>
          obtain ⟨retry, cin2⟩ := r2
          have h2 := extractChar_length _ _ _ hc
          simp only
          split_ifs
          · rfl
          · exact loginLoop_fuel fuel s1 cin2 _ (by omega)

end EMS

/-! ## Salaries -/

namespace EMS

theorem salariesNonneg_iff (s : EmployeeManagementSystem) :
    SalariesNonneg s ↔ ∀ emp ∈ s.employees, 0 ≤ emp.2.salary := by
  unfold SalariesNonneg
  constructor
  · intro h emp hemp
    exact h emp.2 (mem_records.mpr ⟨emp.1, hemp⟩)
  · intro h r hr
    obtain ⟨a, ha⟩ := mem_records.mp hr
    exact h (a, r) ha

theorem addEmployeeSwitch_salary (choice : Int) (name : String) (userId : Int)
    (department position : String) (salary : ℚ) :
    (addEmployeeSwitch choice name userId department position salary).1.salary = salary := by
  unfold addEmployeeSwitch
  split_ifs <;> rfl

/-- The record a call of `addEmployee` appends has the salary that
`getValidDouble` delivered, which is not negative. -/
theorem addEmployee_salary (s : EmployeeManagementSystem) (cin : Cin) (out : Cout)
    (s1 : EmployeeManagementSystem) (cin1 : Cin) (out1 : Cout)
    (h : addEmployee s cin out = some (s1, cin1, out1)) :
    s1 = s ∨ ∃ e : Employee, s1.employees = s.employees ++ [(newAddr s.employees, e)]
      ∧ 0 ≤ e.salary := by
  cases hu : s.current with
  | none => simp [addEmployee, hu] at h
  | some u =>
    by_cases hHR : u.getUserType = "HR"
    · right
      simp only [addEmployee, hu, hHR, ne_eq, not_true_eq_false, if_false] at h
      split at h
      · cases h
      · split at h
        · cases h
        · rename_i salary cin5 out5 hdbl
          have hnn := getValidDoubleLoop_nonneg _ _ _ _ _ _ hdbl
          split at h
          · cases h
          · simp only [Option.some.injEq, Prod.mk.injEq] at h
            obtain ⟨h1, -, -⟩ := h
            subst h1
            refine ⟨_, rfl, ?_⟩
            rw [addEmployeeSwitch_salary]
            exact hnn
    · left
      simp only [addEmployee, hu, hHR, ne_eq, not_false_eq_true, if_true, Option.some.injEq,
        Prod.mk.injEq] at h
      exact h.1.symm

/-- A write that keeps the salary, or sets one that is not negative, keeps
the salaries of the store from being negative. -/
theorem store_salaries (employees : List (Nat × Employee)) (a : Nat) (f : Employee → Employee)
    (hf : ∀ e, 0 ≤ e.salary → 0 ≤ (f e).salary)
    (h : ∀ emp ∈ employees, 0 ≤ emp.2.salary) :
    ∀ emp ∈ store employees a f, 0 ≤ emp.2.salary := by
  intro emp hemp
  simp only [store, List.mem_map] at hemp
  obtain ⟨x, hx, hxe⟩ := hemp
  by_cases hxa : x.1 = a
  · simp only [hxa, if_true] at hxe
    rw [← hxe]
    exact hf _ (h x hx)
  · simp only [hxa, if_false] at hxe
    rw [← hxe]
    exact h x hx

theorem modifyEmployeeSwitch_salaries (employees : List (Nat × Employee)) (a : Nat)
    (choice : Int) (cin : Cin) (out : Cout) (employees3 : List (Nat × Employee)) (cin3 : Cin)
    (out3 : Cout) (hs : ∀ emp ∈ employees, 0 ≤ emp.2.salary)
    (h : modifyEmployeeSwitch employees a choice cin out = some (employees3, cin3, out3)) :
    ∀ emp ∈ employees3, 0 ≤ emp.2.salary := by
  unfold modifyEmployeeSwitch at h
  split_ifs at h
  · simp only [Option.some.injEq, Prod.mk.injEq] at h
    rw [← h.1]
    exact store_salaries _ _ _ (fun e he => he) hs
  · simp only [Option.some.injEq, Prod.mk.injEq] at h
    rw [← h.1]
    exact store_salaries _ _ _ (fun e he => he) hs
  · simp only [Option.some.injEq, Prod.mk.injEq] at h
    rw [← h.1]
    exact store_salaries _ _ _ (fun e he => he) hs
  · split at h
    · cases h
    · rename_i newSalary cin1 out1 hdbl
      have hnn := getValidDoubleLoop_nonneg _ _ _ _ _ _ hdbl
      simp only [Option.some.injEq, Prod.mk.injEq] at h
      rw [← h.1]
      exact store_salaries _ _ _ (fun e _ => hnn) hs
  · simp only [Option.some.injEq, Prod.mk.injEq] at h
    rw [← h.1]
    exact hs

theorem login_salariesNonneg (s : EmployeeManagementSystem) (cin : Cin) (out : Cout) (b : Bool)
    (s1 : EmployeeManagementSystem) (cin1 : Cin) (out1 : Cout) (hs : SalariesNonneg s)
    (h : login s cin out = some (b, s1, cin1, out1)) : SalariesNonneg s1 := by
  rw [salariesNonneg_iff] at hs ⊢
  rw [login_result s cin out b s1 cin1 out1 h]
  exact hs

theorem addEmployee_salariesNonneg (s : EmployeeManagementSystem) (cin : Cin) (out : Cout)
    (s1 : EmployeeManagementSystem) (cin1 : Cin) (out1 : Cout) (hs : SalariesNonneg s)
    (h : addEmployee s cin out = some (s1, cin1, out1)) : SalariesNonneg s1 := by
  rcases addEmployee_salary s cin out s1 cin1 out1 h with h1 | ⟨e, hemp, hnn⟩
  · rw [h1]
    exact hs
  · rw [salariesNonneg_iff] at hs ⊢
    rw [hemp]
    intro emp hemp2
    rcases List.mem_append.mp hemp2 with h2 | h2
    · exact hs emp h2
    · simp only [List.mem_singleton] at h2
      rw [h2]
      exact hnn

theorem modifyEmployee_salariesNonneg (s : EmployeeManagementSystem) (cin : Cin) (out : Cout)
    (s1 : EmployeeManagementSystem) (cin1 : Cin) (out1 : Cout) (hs : SalariesNonneg s)
    (h : modifyEmployee s cin out = some (s1, cin1, out1)) : SalariesNonneg s1 := by
  rw [salariesNonneg_iff] at hs ⊢
  unfold modifyEmployee at h
  split at h
  · cases h
  · split_ifs at h
    · simp only [Option.some.injEq, Prod.mk.injEq] at h
      rw [← h.1]
      exact hs
    · split at h
      · cases h
      · split at h
        · simp only [Option.some.injEq, Prod.mk.injEq] at h
          rw [← h.1]
          exact hs
        · split at h
          · cases h
          · split at h
            · cases h
            · rename_i hsw
              simp only [Option.some.injEq, Prod.mk.injEq] at h
              rw [← h.1]
              exact modifyEmployeeSwitch_salaries _ _ _ _ _ _ _ _ hs hsw

theorem deleteEmployee_salariesNonneg (s : EmployeeManagementSystem) (cin : Cin) (out : Cout)
    (s1 : EmployeeManagementSystem) (cin1 : Cin) (out1 : Cout) (hs : SalariesNonneg s)
    (h : deleteEmployee s cin out = some (s1, cin1, out1)) : SalariesNonneg s1 := by
  rcases deleteEmployee_result s cin out s1 cin1 out1 h with h1 | ⟨it, h1⟩
  · rw [h1]
    exact hs
  · rw [salariesNonneg_iff] at hs ⊢
    rw [h1]
    intro emp hemp
    exact hs emp ((List.eraseIdx_sublist _ _).subset hemp)

theorem init_salariesNonneg : SalariesNonneg EmployeeManagementSystem.init := by
  intro r hr
  simp only [EmployeeManagementSystem.records, EmployeeManagementSystem.init, pushBackNew,
    HREmployee, ManagementEmployee, GeneralEmployee, List.nil_append, List.cons_append,
    List.map_cons, List.map_nil, List.mem_cons, List.mem_singleton, List.not_mem_nil,
    or_false] at hr
  rcases hr with h | h | h | h | h <;> (rw [h]; norm_num)

theorem reachable_salariesNonneg (s : EmployeeManagementSystem) (h : Reachable s) :
    SalariesNonneg s := by
  induction h with
  | init => exact init_salariesNonneg
  | login _ h ih => exact login_salariesNonneg _ _ _ _ _ _ _ ih h
  | addEmployee _ h ih => exact addEmployee_salariesNonneg _ _ _ _ _ _ ih h
  | viewEmployees _ h ih => rw [viewEmployees_result _ _ _ _ _ _ h]; exact ih
  | searchEmployees _ h ih => rw [searchEmployees_state _ _ _ _ _ _ h]; exact ih
  | modifyEmployee _ h ih => exact modifyEmployee_salariesNonneg _ _ _ _ _ _ ih h
  | deleteEmployee _ h ih => exact deleteEmployee_salariesNonneg _ _ _ _ _ _ ih h

/-- C11. No salary is negative in any reachable state: the five seeded
records have salaries that are not negative; the record `addEmployee` appends
and the record `modifyEmployee` rewrites with choice 4 get the number
`getValidDouble` delivered, which is not negative; each of the six operations,
on any input on which it returns, takes a store without negative salaries to
one without; hence no reachable system, and no system the program ends with,
holds a record with a negative salary. -/
theorem salaries_nonneg_invariant :
    SalariesNonneg EmployeeManagementSystem.init
    ∧ (∀ (s : EmployeeManagementSystem) (cin : Cin) (out : Cout) (s1 : EmployeeManagementSystem)
        (cin1 : Cin) (out1 : Cout), addEmployee s cin out = some (s1, cin1, out1) →
        s1 = s ∨ ∃ e : Employee, s1.employees = s.employees ++ [(newAddr s.employees, e)]
          ∧ 0 ≤ e.salary)
    ∧ (∀ (employees : List (Nat × Employee)) (a : Nat) (cin : Cin) (out : Cout)
        (employees3 : List (Nat × Employee)) (cin3 : Cin) (out3 : Cout),
        modifyEmployeeSwitch employees a 4 cin out = some (employees3, cin3, out3) →
        ∃ newSalary : ℚ, 0 ≤ newSalary
          ∧ employees3 = store employees a (fun e => { e with salary := newSalary }))
    ∧ (∀ (s : EmployeeManagementSystem) (cin : Cin) (out : Cout) (s1 : EmployeeManagementSystem)
        (cin1 : Cin) (out1 : Cout), SalariesNonneg s →
        ((∃ b, login s cin out = some (b, s1, cin1, out1))
          ∨ addEmployee s cin out = some (s1, cin1, out1)
          ∨ viewEmployees s cin out = some (s1, cin1, out1)
          ∨ searchEmployees s cin out = some (s1, cin1, out1)
          ∨ modifyEmployee s cin out = some (s1, cin1, out1)
          ∨ deleteEmployee s cin out = some (s1, cin1, out1)) →
        SalariesNonneg s1)
    ∧ (∀ s : EmployeeManagementSystem, Reachable s → SalariesNonneg s)
    ∧ (∀ (cin : Cin) (s1 : EmployeeManagementSystem) (cin1 : Cin) (out1 : Cout),
        main cin = some (s1, cin1, out1) → SalariesNonneg s1) := by
  refine ⟨init_salariesNonneg, addEmployee_salary, ?_, ?_, reachable_salariesNonneg, ?_⟩
  · intro employees a cin out employees3 cin3 out3 h
    simp only [modifyEmployeeSwitch] at h
    norm_num at h
    split at h
    · cases h
    · rename_i newSalary cin1 out1 hdbl
      simp only [Option.some.injEq, Prod.mk.injEq] at h
      exact ⟨newSalary, getValidDoubleLoop_nonneg _ _ _ _ _ _ hdbl, h.1.symm⟩
  · intro s cin out s1 cin1 out1 hs h
    rcases h with ⟨b, h⟩ | h | h | h | h | h
    · exact login_salariesNonneg _ _ _ _ _ _ _ hs h
    · exact addEmployee_salariesNonneg _ _ _ _ _ _ hs h
    · rw [viewEmployees_result _ _ _ _ _ _ h]; exact hs
    · rw [searchEmployees_state _ _ _ _ _ _ h]; exact hs
    · exact modifyEmployee_salariesNonneg _ _ _ _ _ _ hs h
    · exact deleteEmployee_salariesNonneg _ _ _ _ _ _ hs h
  · intro cin s1 cin1 out1 h
    exact reachable_salariesNonneg s1 (main_reachable cin s1 cin1 out1 h)

theorem salaries_nonneg_invariant_witness :
    (modifyEmployee (seededAs 1) ["3001", "4", "-5", "70000", "6"] []).map
        (fun r => (r.1, r.2.1))
      = some ({ employees := [(1, sarah), (2, mike), (3, { john with salary := 70000 }),
                  (4, emily), (5, david)],
                currentUser := some 1 }, ["6"])
    ∧ SalariesNonneg { employees := [(1, sarah), (2, mike), (3, { john with salary := 70000 }),
                         (4, emily), (5, david)],
                       currentUser := some 1 } := by
  have hm : (modifyEmployee (seededAs 1) ["3001", "4", "-5", "70000", "6"] []).map
        (fun r => (r.1, r.2.1))
      = some ({ employees := [(1, sarah), (2, mike), (3, { john with salary := 70000 }),
                  (4, emily), (5, david)],
                currentUser := some 1 }, ["6"]) := by
    have h1 : parseDouble "-5" = some (-5) := by
      decide
    have h2 : parseDouble "70000" = some 70000 := by
      decide
    have hb1 : isBlank "-5" = false := by decide
    have hb2 : isBlank "70000" = false := by decide
    have hf : findById (seededAs 1).employees 3001 = some (3, john) := by decide
    have hu : (seededAs 1).current = some sarah := by decide
    have hst : store (seededAs 1).employees 3 (fun e => e.setSalary 70000)
        = [(1, sarah), (2, mike), (3, { john with salary := 70000 }), (4, emily),
            (5, david)] := by
      decide
    have hHR : sarah.getUserType = "HR" := by decide
    simp only [modifyEmployee, hu, hHR,
      getValidInteger_cons_some _ _ _ _ _ (by decide : parseInt "3001" = some 3001),
      getValidInteger_cons_some _ _ _ _ _ (by decide : parseInt "4" = some 4), hf,
      modifyEmployeeSwitch, getValidDouble, getValidDoubleLoop, h1, h2, hb1, hb2, hst]
    norm_num
    exact ⟨hst, rfl⟩
  refine ⟨hm, ?_⟩
  obtain ⟨⟨s1, cin1, out1⟩, hr, hx⟩ := Option.map_eq_some'.mp hm
  simp only [Prod.mk.injEq] at hx
  have hlog : ∃ cin2 out2, login EmployeeManagementSystem.init ["1001"] []
      = some (true, seededAs 1, cin2, out2) := ⟨_, _, rfl⟩
  obtain ⟨cin2, out2, hlog⟩ := hlog
  rw [← hx.1]
  exact salaries_nonneg_invariant.2.2.2.1 (seededAs 1) _ _ s1 cin1 out1
    (salaries_nonneg_invariant.2.2.2.2.1 (seededAs 1) (Reachable.login Reachable.init hlog))
    (Or.inr (Or.inr (Or.inr (Or.inr (Or.inl hr)))))

end EMS

/-! ## Logout -/

namespace EMS

/-- The main loop only ends in a system that has a current user. -/
theorem mainLoop_current :
    ∀ (fuel : Nat) (s : EmployeeManagementSystem) (cin : Cin) (out : Cout)
      (s1 : EmployeeManagementSystem) (cin1 : Cin) (out1 : Cout),
      mainLoop fuel s cin out = some (s1, cin1, out1) → ∃ u1, s1.current = some u1
  | 0, _, _, _, _, _, _, h => by simp [mainLoop] at h
  | fuel + 1, s, cin, out, s1, cin1, out1, h => by
    unfold mainLoop at h
    split at h
    · cases h
    · rename_i u hu
      split at h
      · cases h
      · split_ifs at h
        · simp only [Option.some.injEq, Prod.mk.injEq] at h
          rw [← h.1]
          exact ⟨u, hu⟩
        · split at h
          · cases h
          · exact mainLoop_current fuel _ _ _ _ _ _ h

/-- C12, as stated, fails: after an HR login and the logout choice 6 the
program ends with the current user still set to the record that logged in. -/
theorem logout_leaves_current_user_set :
    (main ["1001", "6"]).map (fun r => (r.1.currentUser, r.2.1)) = some (some 1, [])
    ∧ (main ["1001", "6"]).map (fun r => r.1.current) = some (some sarah) := by
  decide

/-- C12, amended. The current user is unset in the constructed system (before
login), and the logout choice does not unset it: for every role, when the
choice read in the main loop is the logout choice of the role (6 for HR, 3 for
Management, 2 for General), the loop and `run` end with the system exactly as
it was, so its current user is still the logged-in record; and every run of
the main loop that ends, ends in a system that has a current user. -/
theorem logout_keeps_session (s : EmployeeManagementSystem) (u : Employee) (fuel : Nat)
    (cin cin1 : Cin) (out out1 : Cout) (choice : Int)
    (hu : s.current = some u)
    (hread : getValidInteger (menuPrompt u.getUserType) cin (out ++ displayMenu u)
      = some (choice, cin1, out1))
    (hchoice : (u.getUserType = "HR" ∧ choice = 6)
      ∨ (u.getUserType = "Management" ∧ choice = 3)
      ∨ (u.getUserType = "General" ∧ choice = 2)) :
    EmployeeManagementSystem.init.currentUser = none
    ∧ mainLoop (fuel + 1) s cin out
        = some (s, cin1, out1 ++ [Item.str "Logging out... Goodbye!", Item.endl])
    ∧ s.currentUser ≠ none
    ∧ (∀ (fuel0 : Nat) (s0 : EmployeeManagementSystem) (cin0 : Cin) (out0 : Cout)
        (s1 : EmployeeManagementSystem) (cin2 : Cin) (out2 : Cout),
        mainLoop fuel0 s0 cin0 out0 = some (s1, cin2, out2) →
          s1.currentUser ≠ none ∧ ∃ u1, s1.current = some u1) := by
  have hact : menuAction u.getUserType choice = Action.logout := by
    rcases hchoice with ⟨ht, hc⟩ | ⟨ht, hc⟩ | ⟨ht, hc⟩ <;> simp [menuAction, ht, hc]
  have hcur : ∀ (s0 : EmployeeManagementSystem) (u0 : Employee), s0.current = some u0 →
      s0.currentUser ≠ none := by
    intro s0 u0 h0 hn
    simp [EmployeeManagementSystem.current, hn] at h0
  refine ⟨rfl, ?_, hcur s u hu, ?_⟩
  · simp only [mainLoop, hu, hread, hact, if_true]
  · intro fuel0 s0 cin0 out0 s1 cin2 out2 h
    obtain ⟨u1, hu1⟩ := mainLoop_current fuel0 s0 cin0 out0 s1 cin2 out2 h
    exact ⟨hcur s1 u1 hu1, u1, hu1⟩

theorem logout_keeps_session_witness :
    (seededAs 2).current = some mike
    ∧ getValidInteger (menuPrompt mike.getUserType) ["3", "x"] ([] ++ displayMenu mike)
        = some (3, ["x"], displayMenu mike ++ [Item.str "Enter your choice (1-3): "])
    ∧ (mike.getUserType = "Management" ∧ (3 : Int) = 3)
    ∧ mainLoop 1 (seededAs 2) ["3", "x"] []
        = some (seededAs 2, ["x"],
            displayMenu mike ++ [Item.str "Enter your choice (1-3): "]
              ++ [Item.str "Logging out... Goodbye!", Item.endl])
    ∧ (seededAs 2).currentUser = some 2 :=
  ⟨by decide, by decide, by decide,
    (logout_keeps_session (seededAs 2) mike 0 ["3", "x"] ["x"] []
      (displayMenu mike ++ [Item.str "Enter your choice (1-3): "]) 3
      (by decide) (by decide) (Or.inr (Or.inl (by decide)))).2.1,
    rfl⟩

end EMS

/-! ## The record of the session -/

namespace EMS

theorem lookup_mem (employees : List (Nat × Employee)) (a : Nat) (u : Employee)
    (h : lookup employees a = some u) : (a, u) ∈ employees := by
  induction employees with
  | nil => simp [lookup] at h
  | cons x rest ih =>
    unfold lookup at h
    by_cases hx : x.1 = a
    · simp only [hx, if_true, Option.some.injEq] at h
      rw [← h, ← hx]
      simp
    · simp only [hx, if_false] at h
      exact List.mem_cons_of_mem _ (ih h)

theorem lookup_append_left (employees more : List (Nat × Employee)) (a : Nat) (u : Employee)
    (h : lookup employees a = some u) : lookup (employees ++ more) a = some u := by
  induction employees with
  | nil => simp [lookup] at h
  | cons x rest ih =>
    unfold lookup at h
    by_cases hx : x.1 = a
    · simp only [hx, if_true] at h
      simp [lookup, hx, h]
    · simp only [hx, if_false] at h
      simp only [List.cons_append, lookup, hx, if_false]
      exact ih h

/-- Reading through an address after a write through an address. -/
theorem lookup_store (employees : List (Nat × Employee)) (a b : Nat) (f : Employee → Employee)
    (u : Employee) (h : lookup employees a = some u) :
    lookup (store employees b f) a = some (if a = b then f u else u) := by
  induction employees with
  | nil => simp [lookup] at h
  | cons x rest ih =>
    unfold lookup at h
    by_cases hx : x.1 = a
    · simp only [hx, if_true, Option.some.injEq] at h
      by_cases hab : a = b
      · simp [store, lookup, hx, hab, h]
      · simp [store, lookup, hx, hab, h]
    · simp only [hx, if_false] at h
      have ih2 := ih h
      simp only [store] at ih2
      by_cases hxb : x.1 = b
      · simp only [store, List.map_cons, hxb, if_true, lookup]
        rw [← hxb]
        simp only [hx, if_false]
        rw [hxb]
        exact ih2
      · simp only [store, List.map_cons, hxb, if_false, lookup, hx]
        exact ih2

/-- Erasing a slot that holds another record does not change what an address
of the session refers to. -/
theorem lookup_eraseIdx (a : Nat) (u : Employee) :
    ∀ (employees : List (Nat × Employee)) (it : Nat) (emp : Nat × Employee),
      lookup employees a = some u → employees.get? it = some emp → emp.2 ≠ u →
        lookup (employees.eraseIdx it) a = some u
  | [], _, _, h, _, _ => by simp [lookup] at h
  | x :: rest, 0, emp, h, hget, hne => by
    simp only [List.get?_cons_zero, Option.some.injEq] at hget
    unfold lookup at h
    by_cases hx : x.1 = a
    · simp only [hx, if_true, Option.some.injEq] at h
      rw [hget] at h
      exact absurd h hne
    · simp only [hx, if_false] at h
      simpa [List.eraseIdx] using h
  | x :: rest, it + 1, emp, h, hget, hne => by
    simp only [List.get?_cons_succ] at hget
    unfold lookup at h
    by_cases hx : x.1 = a
    · simp only [hx, if_true] at h
      simp [List.eraseIdx, lookup, hx, h]
    · simp only [hx, if_false] at h
      simp only [List.eraseIdx, lookup, hx, if_false]
      exact lookup_eraseIdx a u rest it emp h hget hne

theorem findIf_get? (id : Int) :
    ∀ (employees : List (Nat × Employee)) (it : Nat) (emp : Nat × Employee),
      findIf employees id = some it → employees.get? it = some emp → emp.2.userId = id
  | [], _, _, h, _ => by simp [findIf] at h
  | x :: rest, it, emp, h, hget => by
    unfold findIf at h
    by_cases hx : x.2.userId = id
    · simp only [hx, if_true, Option.some.injEq] at h
      rw [← h] at hget
      simp only [List.get?_cons_zero, Option.some.injEq] at hget
      rw [← hget]
      exact hx
    · simp only [hx, if_false] at h
      cases hr : findIf rest id with
      | none => simp [hr] at h
      | some j =>
        simp only [hr, Option.map_some', Option.some.injEq] at h
        rw [← h] at hget
        simp only [List.get?_cons_succ] at hget
        exact findIf_get? id rest j emp hr hget

theorem current_eq_some {s : EmployeeManagementSystem} {u : Employee}
    (h : s.current = some u) :
    ∃ a, s.currentUser = some a ∧ lookup s.employees a = some u := by
  unfold EmployeeManagementSystem.current at h
  split at h
  · cases h
  · rename_i a ha
    exact ⟨a, ha, h⟩

theorem current_of_lookup {s : EmployeeManagementSystem} {a : Nat} {u : Employee}
    (ha : s.currentUser = some a) (h : lookup s.employees a = some u) : s.current = some u := by
  simp [EmployeeManagementSystem.current, ha, h]

theorem modifyEmployeeSwitch_store (employees : List (Nat × Employee)) (a : Nat)
    (choice : Int) (cin : Cin) (out : Cout) (employees3 : List (Nat × Employee)) (cin3 : Cin)
    (out3 : Cout)
    (h : modifyEmployeeSwitch employees a choice cin out = some (employees3, cin3, out3)) :
    employees3 = employees
    ∨ ∃ f : Employee → Employee, employees3 = store employees a f
        ∧ ∀ e, (f e).userId = e.userId ∧ (f e).cls = e.cls := by
  unfold modifyEmployeeSwitch at h
  split_ifs at h
  · simp only [Option.some.injEq, Prod.mk.injEq] at h
    exact Or.inr ⟨_, h.1.symm, fun e => ⟨rfl, rfl⟩⟩
  · simp only [Option.some.injEq, Prod.mk.injEq] at h
    exact Or.inr ⟨_, h.1.symm, fun e => ⟨rfl, rfl⟩⟩
  · simp only [Option.some.injEq, Prod.mk.injEq] at h
    exact Or.inr ⟨_, h.1.symm, fun e => ⟨rfl, rfl⟩⟩
  · split at h
    · cases h
    · simp only [Option.some.injEq, Prod.mk.injEq] at h
      exact Or.inr ⟨_, h.1.symm, fun e => ⟨rfl, rfl⟩⟩
  · simp only [Option.some.injEq, Prod.mk.injEq] at h
    exact Or.inl h.1.symm

/-- A call of `modifyEmployee` that returns has changed nothing or written
through one address, keeping the id and the class of the object there. -/
theorem modifyEmployee_store (s : EmployeeManagementSystem) (cin : Cin) (out : Cout)
    (s1 : EmployeeManagementSystem) (cin1 : Cin) (out1 : Cout)
    (h : modifyEmployee s cin out = some (s1, cin1, out1)) :
    s1.currentUser = s.currentUser
    ∧ (s1.employees = s.employees
      ∨ ∃ (b : Nat) (f : Employee → Employee), s1.employees = store s.employees b f
          ∧ ∀ e, (f e).userId = e.userId ∧ (f e).cls = e.cls) := by
  unfold modifyEmployee at h
  split at h
  · cases h
  · split_ifs at h
    · simp only [Option.some.injEq, Prod.mk.injEq] at h
      rw [← h.1]
      exact ⟨rfl, Or.inl rfl⟩
    · split at h
      · cases h
      · split at h
        · simp only [Option.some.injEq, Prod.mk.injEq] at h
          rw [← h.1]
          exact ⟨rfl, Or.inl rfl⟩
        · split at h
          · cases h
          · split at h
            · cases h
            · rename_i emp _ _ _ _ _ _ _ hsw
              simp only [Option.some.injEq, Prod.mk.injEq] at h
              rw [← h.1]
              refine ⟨rfl, ?_⟩
              rcases modifyEmployeeSwitch_store _ _ _ _ _ _ _ _ hsw with h1 | ⟨f, h1, h2⟩
              · exact Or.inl h1
              · exact Or.inr ⟨_, f, h1, h2⟩

/-- A call of `deleteEmployee` that returns has changed nothing or erased one
slot, whose record has an id other than that of the current user. -/
theorem deleteEmployee_erased (s : EmployeeManagementSystem) (cin : Cin) (out : Cout)
    (s1 : EmployeeManagementSystem) (cin1 : Cin) (out1 : Cout)
    (h : deleteEmployee s cin out = some (s1, cin1, out1)) :
    s1 = s
    ∨ ∃ (u : Employee) (it : Nat) (emp : Nat × Employee),
        s.current = some u ∧ s.employees.get? it = some emp ∧ emp.2.userId ≠ u.userId
        ∧ s1 = { employees := s.employees.eraseIdx it, currentUser := s.currentUser } := by
  unfold deleteEmployee at h
  split at h
  · cases h
  · rename_i u hu
    split_ifs at h
    · simp only [Option.some.injEq, Prod.mk.injEq] at h
      exact Or.inl h.1.symm
    · split at h
      · cases h
      · rename_i userId cin2 out2 hread
        split_ifs at h with hown
        · simp only [Option.some.injEq, Prod.mk.injEq] at h
          exact Or.inl h.1.symm
        · split at h
          · rename_i it hfind
            split at h
            · cases h
            · rename_i emp hget
              split at h
              · cases h
              · split_ifs at h
                · simp only [Option.some.injEq, Prod.mk.injEq] at h
                  refine Or.inr ⟨u, it, emp, hu, hget, ?_, h.1.symm⟩
                  rw [findIf_get? userId _ _ _ hfind hget]
                  exact hown
                · simp only [Option.some.injEq, Prod.mk.injEq] at h
                  exact Or.inl h.1.symm
          · simp only [Option.some.injEq, Prod.mk.injEq] at h
            exact Or.inl h.1.symm

/-- No case of the main loop changes which object the session refers to, nor
the id or the class of that object, and the object stays in the store. -/
theorem perform_session (a : Action) (s : EmployeeManagementSystem) (cin : Cin) (out : Cout)
    (s1 : EmployeeManagementSystem) (cin1 : Cin) (out1 : Cout) (u : Employee)
    (hu : s.current = some u) (h : perform a s cin out = some (s1, cin1, out1)) :
    s1.currentUser = s.currentUser
    ∧ ∃ u1, s1.current = some u1 ∧ u1.userId = u.userId ∧ u1.cls = u.cls := by
  obtain ⟨p, hp, hl⟩ := current_eq_some hu
  have hsame : s1 = s → s1.currentUser = s.currentUser
      ∧ ∃ u1, s1.current = some u1 ∧ u1.userId = u.userId ∧ u1.cls = u.cls := by
    intro h1
    rw [h1]
    exact ⟨rfl, u, hu, rfl, rfl⟩
  cases a <;> simp only [perform] at h
  · rcases addEmployee_result s cin out s1 cin1 out1 h with ⟨v, -, -, h1⟩ | ⟨e, hemp, -, -, hc⟩
    · exact hsame h1
    · refine ⟨hc, u, ?_, rfl, rfl⟩
      apply current_of_lookup (hc.trans hp)
      rw [hemp]
      exact lookup_append_left _ _ _ _ hl
  · exact hsame (viewEmployees_result _ _ _ _ _ _ h)
  · exact hsame (searchEmployees_state _ _ _ _ _ _ h)
  · obtain ⟨hc, hres⟩ := modifyEmployee_store s cin out s1 cin1 out1 h
    rcases hres with h1 | ⟨b, f, h1, hf⟩
    · refine ⟨hc, u, ?_, rfl, rfl⟩
      apply current_of_lookup (hc.trans hp)
      rw [h1]
      exact hl
    · refine ⟨hc, if p = b then f u else u, ?_, ?_, ?_⟩
      · apply current_of_lookup (hc.trans hp)
        rw [h1]
        exact lookup_store _ _ _ _ _ hl
      · split_ifs
        · exact (hf u).1
        · rfl
      · split_ifs
        · exact (hf u).2
        · rfl
  · rcases deleteEmployee_erased s cin out s1 cin1 out1 h with h1 | ⟨v, it, emp, hv, hget, hne, h1⟩
    · exact hsame h1
    · rw [hu] at hv
      cases hv
      rw [h1]
      refine ⟨rfl, u, ?_, rfl, rfl⟩
      have hl2 : lookup (s.employees.eraseIdx it) p = some u :=
        lookup_eraseIdx p u _ it emp hl hget (fun heq => hne (by rw [heq]))
      simp [EmployeeManagementSystem.current, hp, hl2]
  · simp only [Option.some.injEq, Prod.mk.injEq] at h
    exact hsame h.1.symm
  · simp only [Option.some.injEq, Prod.mk.injEq] at h
    exact hsame h.1.symm

theorem lookup_isSome_of_mem (employees : List (Nat × Employee)) (a : Nat) (e : Employee)
    (h : (a, e) ∈ employees) : ∃ u, lookup employees a = some u := by
  induction employees with
  | nil => simp at h
  | cons x rest ih =>
    by_cases hx : x.1 = a
    · exact ⟨x.2, by simp [lookup, hx]⟩
    · rcases List.mem_cons.mp h with h1 | h1
      · rw [← h1] at hx
        exact absurd rfl hx
      · obtain ⟨u, hu⟩ := ih h1
        exact ⟨u, by simp [lookup, hx, hu]⟩

/-- After a successful `login` there is a current user. -/
theorem login_true_current (s : EmployeeManagementSystem) (cin : Cin) (out : Cout)
    (s1 : EmployeeManagementSystem) (cin1 : Cin) (out1 : Cout)
    (h : login s cin out = some (true, s1, cin1, out1)) : ∃ u, s1.current = some u := by
  unfold login at h
  split at h
  · cases h
  · rename_i userId cin2 out2 hread
    cases hf : findById s.employees userId with
    | none => simp [hf] at h
    | some emp =>
      simp only [hf, Option.some.injEq, Prod.mk.injEq, true_and] at h
      obtain ⟨pre, post, hsplit, -, -⟩ := findById_eq_some _ _ _ hf
      have hmem : (emp.1, emp.2) ∈ s.employees := by
        rw [hsplit]
        simp
      obtain ⟨u, hu⟩ := lookup_isSome_of_mem _ _ _ hmem
      refine ⟨u, ?_⟩
      rw [← h.1]
      simp [EmployeeManagementSystem.current, hu]

/-- A `login` that fails leaves the system as it was. -/
theorem login_false_state (s : EmployeeManagementSystem) (cin : Cin) (out : Cout)
    (s1 : EmployeeManagementSystem) (cin1 : Cin) (out1 : Cout)
    (h : login s cin out = some (false, s1, cin1, out1)) : s1 = s := by
  unfold login at h
  split at h
  · cases h
  · split at h
    · simp at h
    · simp only [Option.some.injEq, Prod.mk.injEq, true_and] at h
      exact h.1.symm

/-- In a session there is a current user, it is a record of the store, and
the store is not empty. -/
theorem inSession_current (s : EmployeeManagementSystem) (h : InSession s) :
    ∃ u, s.current = some u ∧ u ∈ s.records ∧ s.employees ≠ [] := by
  have hrec : ∀ (s0 : EmployeeManagementSystem) (u0 : Employee), s0.current = some u0 →
      u0 ∈ s0.records ∧ s0.employees ≠ [] := by
    intro s0 u0 h0
    obtain ⟨a, -, hl⟩ := current_eq_some h0
    have hmem := lookup_mem _ _ _ hl
    exact ⟨mem_records.mpr ⟨a, hmem⟩, List.ne_nil_of_mem hmem⟩
  induction h with
  | login h =>
    obtain ⟨u, hu⟩ := login_true_current _ _ _ _ _ _ h
    exact ⟨u, hu, hrec _ _ hu⟩
  | step _ h ih =>
    obtain ⟨u, hu, -, -⟩ := ih
    obtain ⟨-, u1, hu1, -, -⟩ := perform_session _ _ _ _ _ _ _ u hu h
    exact ⟨u1, hu1, hrec _ _ hu1⟩

/-- The main loop leads from a system of a session to systems of the session. -/
theorem mainLoop_inSession :
    ∀ (fuel : Nat) (s : EmployeeManagementSystem) (cin : Cin) (out : Cout)
      (s1 : EmployeeManagementSystem) (cin1 : Cin) (out1 : Cout),
      InSession s → mainLoop fuel s cin out = some (s1, cin1, out1) → InSession s1
  | 0, _, _, _, _, _, _, _, h => by simp [mainLoop] at h
  | fuel + 1, s, cin, out, s1, cin1, out1, hs, h => by
    unfold mainLoop at h
    split at h
    · cases h
    · split at h
      · cases h
      · split_ifs at h
        · simp only [Option.some.injEq, Prod.mk.injEq] at h
          rw [← h.1]
          exact hs
        · split at h
          · cases h
          · rename_i hperf
            exact mainLoop_inSession fuel _ _ _ _ _ _ (InSession.step hs hperf) h

/-- The login loop of `run` on the constructed system ends in a session, or,
when the user gives up, in the constructed system. -/
theorem loginLoop_init :
    ∀ (fuel : Nat) (cin : Cin) (out : Cout) (b : Bool) (s1 : EmployeeManagementSystem)
      (cin1 : Cin) (out1 : Cout),
      loginLoop fuel EmployeeManagementSystem.init cin out = some (b, s1, cin1, out1) →
        (b = true ∧ InSession s1) ∨ (b = false ∧ s1 = EmployeeManagementSystem.init)
  | 0, _, _, _, _, _, _, h => by simp [loginLoop] at h
  | fuel + 1, cin, out, b, s1, cin1, out1, h => by
    unfold loginLoop at h
    split at h
    · cases h
    · rename_i hlog
      simp only [Option.some.injEq, Prod.mk.injEq] at h
      rw [← h.1, ← h.2.1]
      exact Or.inl ⟨rfl, InSession.login hlog⟩
    · rename_i s2 cin2 out2 hlog
      have hs2 := login_false_state _ _ _ _ _ _ hlog
      subst hs2
      split at h
      · cases h
      · split_ifs at h
        · simp only [Option.some.injEq, Prod.mk.injEq] at h
          rw [← h.1, ← h.2.1]
          exact Or.inr ⟨rfl, rfl⟩
        · exact loginLoop_init fuel _ _ _ _ _ _ h

/-- The program ends in a system of a session, or, when no login succeeded,
in the constructed system. -/
theorem main_inSession (cin : Cin) (s1 : EmployeeManagementSystem) (cin1 : Cin) (out1 : Cout)
    (h : main cin = some (s1, cin1, out1)) :
    InSession s1 ∨ s1 = EmployeeManagementSystem.init := by
  unfold main run at h
  split at h
  · cases h
  · rename_i hlog
    simp only [Option.some.injEq, Prod.mk.injEq] at h
    rw [← h.1]
    rcases loginLoop_init _ _ _ _ _ _ _ hlog with ⟨hb, -⟩ | ⟨-, hs⟩
    · cases hb
    · exact Or.inr hs
  · rename_i hlog
    rcases loginLoop_init _ _ _ _ _ _ _ hlog with ⟨-, hs⟩ | ⟨hb, -⟩
    · exact Or.inl (mainLoop_inSession _ _ _ _ _ _ _ hs h)
    · cases hb

/-- C13. The logged-in record stays a record of the store. No case of the
main loop (add, view, search, modify, delete, or an invalid choice), on any
input on which it returns, changes which object the session refers to, and
the object keeps its id and class and is still found in the store; so in every
system reached by a successful login on the seeded store followed by any
sequence of such cases, the current user is a record of the store and the
store is not empty; and the program ends either in such a system or, when no
login succeeded, in the seeded system with no current user. -/
theorem session_record_stays_in_store :
    (∀ (a : Action) (s : EmployeeManagementSystem) (cin : Cin) (out : Cout)
        (s1 : EmployeeManagementSystem) (cin1 : Cin) (out1 : Cout) (u : Employee),
        s.current = some u → perform a s cin out = some (s1, cin1, out1) →
          s1.currentUser = s.currentUser
          ∧ ∃ u1, s1.current = some u1 ∧ u1.userId = u.userId ∧ u1.cls = u.cls
              ∧ u1 ∈ s1.records)
    ∧ (∀ s : EmployeeManagementSystem, InSession s →
        ∃ u, s.current = some u ∧ u ∈ s.records ∧ s.employees ≠ [])
    ∧ (∀ (cin : Cin) (s1 : EmployeeManagementSystem) (cin1 : Cin) (out1 : Cout),
        main cin = some (s1, cin1, out1) →
          (s1 = EmployeeManagementSystem.init ∧ s1.currentUser = none)
          ∨ ∃ u, s1.current = some u ∧ u ∈ s1.records ∧ s1.employees ≠ []) := by
  refine ⟨?_, inSession_current, ?_⟩
  · intro a s cin out s1 cin1 out1 u hu h
    obtain ⟨hc, u1, hu1, hid, hcls⟩ := perform_session a s cin out s1 cin1 out1 u hu h
    obtain ⟨p, -, hl⟩ := current_eq_some hu1
    exact ⟨hc, u1, hu1, hid, hcls, mem_records.mpr ⟨p, lookup_mem _ _ _ hl⟩⟩
  · intro cin s1 cin1 out1 h
    rcases main_inSession cin s1 cin1 out1 h with hs | hs
    · exact Or.inr (inSession_current s1 hs)
    · rw [hs]
      exact Or.inl ⟨rfl, rfl⟩

theorem session_record_stays_in_store_witness :
    (∃ cin1 out1, login EmployeeManagementSystem.init ["1001", "5", "3002", "y"] []
        = some (true, seededAs 1, cin1, out1))
    ∧ (∃ cin1 out1, perform Action.deleteEmployee (seededAs 1) ["3002", "y"] []
        = some ({ employees := [(1, sarah), (2, mike), (3, john), (5, david)],
                  currentUser := some 1 }, cin1, out1))
    ∧ ∃ u, EmployeeManagementSystem.current
          { employees := [(1, sarah), (2, mike), (3, john), (5, david)],
            currentUser := some 1 } = some u
        ∧ u ∈ EmployeeManagementSystem.records
          { employees := [(1, sarah), (2, mike), (3, john), (5, david)],
            currentUser := some 1 }
        ∧ [(1, sarah), (2, mike), (3, john), (5, david)] ≠ [] := by
  have h1 : ∃ cin1 out1, login EmployeeManagementSystem.init ["1001", "5", "3002", "y"] []
      = some (true, seededAs 1, cin1, out1) := ⟨_, _, rfl⟩
  have h2 : ∃ cin1 out1, perform Action.deleteEmployee (seededAs 1) ["3002", "y"] []
      = some ({ employees := [(1, sarah), (2, mike), (3, john), (5, david)],
                currentUser := some 1 }, cin1, out1) := ⟨_, _, rfl⟩
  refine ⟨h1, h2, ?_⟩
  obtain ⟨_, _, h1⟩ := h1
  obtain ⟨_, _, h2⟩ := h2
  exact session_record_stays_in_store.2.1 _ (InSession.step (InSession.login h1) h2)

end EMS
